import Mathlib

/-!
# pharmacy_map: extraction and enrichment of pharmacy records

A shallow embedding of `retriever/main.go`:

* `extractPharmacy` from the point where the sheet's rows are available
  (after `excelize.OpenReader` and `GetRows("Sheet1")` succeeded);
* `retrieveAdditionalInfo` from the point where `reward.yml` has been loaded
  and the geocoder URL parsed.  The geocoding service is an oracle that gives
  the outcome of every request.

Go slices of pointers are lists of values: the records of one run are
distinct objects, so no two positions of a list alias each other.
-/

set_option autoImplicit false

namespace PharmacyMap

/-! ## Column bindings and data model -/

def PREFID : Nat := 1
def PREF : Nat := 2
def CLASS : Nat := 3
def ID : Nat := 4
def NAME : Nat := 7
def POSTID : Nat := 8
def ADDRESS : Nat := 9
def TEL : Nat := 10
def FAX : Nat := 11
def FACIL : Nat := 13

/-- Number of geocoder attempts per record (`const RETRY = 10`). -/
def RETRY : Nat := 10

/-- A sheet row: the string cells of one spreadsheet line. -/
abbrev Row := List String

/-- A float64 value by its IEEE 754 bit pattern. Coordinates are only
copied by the program, never computed with. -/
structure Float64 where
  bits : Nat
  deriving DecidableEq, Repr

/-- The fields of `ExcelInfo` that extraction reads. -/
structure ExcelInfo where
  Department : String
  OriginURL : String
  RewardID : String
  ExcelURL : List String
  Desc : String
  deriving DecidableEq, Repr

/-- One pharmacy record (`PharmacyInfo`). `Point` is a Go `int`. -/
structure PharmacyInfo where
  PrefectureID : String
  Prefecture : String
  ID : String
  Name : String
  PostID : String
  Address : String
  Telephone : String
  Fax : String
  Facility : List String
  RewardID : String
  Point : Int
  Lat : Float64
  Lon : Float64
  Desc : String
  deriving DecidableEq, Repr

/-- One candidate of a geocoder response. -/
structure Candidate where
  Longitude : Float64
  Latitude : Float64
  deriving DecidableEq, Repr

/-- A decoded geocoder response (`GeocodeResult`). -/
structure GeocodeResult where
  Candidate : List Candidate
  deriving DecidableEq, Repr

/-- One reward table (`RewardInfo`). The Go map is a key/value list read by
first match; a map loaded from YAML has no repeated key. -/
structure RewardInfo where
  ID : String
  Reward : List (String × Int)
  deriving DecidableEq, Repr

/-- Errors of the program: `errors.New`, `errors.Wrap`, and the errors that
`http.Get` and the XML decoder return. -/
inductive Error where
  | new (msg : String)
  | wrap (inner : Error) (msg : String)
  | transport
  | decode
  deriving DecidableEq, Repr

deriving instance DecidableEq for Except

/-! ## extractPharmacy -/

/-- White space in the sense of Go's `unicode.IsSpace`. -/
def isSpace (c : Char) : Bool :=
  let n := c.toNat
  (9 ≤ n && n ≤ 13) || n == 0x20 || n == 0x85 || n == 0xA0 || n == 0x1680 ||
    (0x2000 ≤ n && n ≤ 0x200A) || n == 0x2028 || n == 0x2029 || n == 0x202F ||
    n == 0x205F || n == 0x3000

/-- Model of `strings.TrimSpace`: drop leading and trailing white space. -/
def TrimSpace (s : String) : String :=
  ⟨((s.data.dropWhile isSpace).reverse.dropWhile isSpace).reverse⟩

/-- The padding loop `for i := len(row); i <= FACIL; i++ { append "" }`,
by the number of iterations left. -/
def padLoop : Nat → Row → Row
  | 0, row => row
  | n + 1, row => padLoop n (row ++ [""])

/-- Body of the first loop of `extractPharmacy` for one row: trim every
cell in place, then pad with empty cells while `i <= FACIL`. -/
def normalizeRow (row : Row) : Row :=
  padLoop (FACIL + 1 - row.length) (row.map TrimSpace)

/-- The first loop of `extractPharmacy` over all rows. -/
def normalizeRows (rows : List Row) : List Row :=
  rows.map normalizeRow

/-- The cell `row[i]`. On a normalized row every column the program reads
is in range (`facil_lt_length_normalizeRow`), so the default is not used. -/
def cell (row : Row) (i : Nat) : String :=
  row.getD i ""

/-- The header test `len(rows[i]) > ID && rows[i][ID] == "医療機関番号"`. -/
def isHeader (row : Row) : Bool :=
  decide (row.length > ID) && cell row ID == "医療機関番号"

/-- The header loop `for i = 0; i < len(rows); i++ { if ... { break } }`
started at counter `i` on the rows from `i` on; the value is the final `i`. -/
def headerLoop : List Row → Nat → Nat
  | [], i => i
  | row :: rest, i => if isHeader row then i else headerLoop rest (i + 1)

/-- The record created by `p = &PharmacyInfo{...}`; fields not listed in
the literal have their zero value. -/
def newPharmacy (infos : ExcelInfo) (row : Row) : PharmacyInfo :=
  { PrefectureID := cell row PREFID
    Prefecture := cell row PREF
    ID := cell row ID
    Name := cell row NAME
    PostID := cell row POSTID
    Address := cell row ADDRESS
    Telephone := cell row TEL
    Fax := cell row FAX
    Facility := []
    RewardID := infos.RewardID
    Point := 0
    Lat := ⟨0⟩
    Lon := ⟨0⟩
    Desc := infos.Desc }

/-- State of the record loop: the slice `ps` and the pointer `p`, held as
the position in `ps` of the record it points to (`none` is `nil`). -/
structure ExtractState where
  ps : List PharmacyInfo
  p : Option Nat
  deriving DecidableEq, Repr

/-- The update `p.Facility = append(p.Facility, f)` through the pointer at
position `k`. -/
def appendFacility (f : String) : Nat → List PharmacyInfo → List PharmacyInfo
  | _, [] => []
  | 0, x :: xs => { x with Facility := x.Facility ++ [f] } :: xs
  | k + 1, x :: xs => x :: appendFacility f k xs

/-- The test `p == nil || p.ID != row[ID]`. -/
def startsNew (st : ExtractState) (row : Row) : Bool :=
  match st.p with
  | none => true
  | some k =>
    match st.ps.get? k with
    | none => true
    | some rec => rec.ID != cell row ID

/-- Body of the record loop for one row after the header. -/
def extractRow (infos : ExcelInfo) (st : ExtractState) (row : Row) : ExtractState :=
  if cell row CLASS != "薬局" then st
  else
    let st1 : ExtractState :=
      if startsNew st row then
        { ps := st.ps ++ [newPharmacy infos row], p := some st.ps.length }
      else st
    if cell row FACIL != "" then
      match st1.p with
      | none => st1
      | some k => { st1 with ps := appendFacility (cell row FACIL) k st1.ps }
    else st1

/-- The record loop `for _, row := range rows[i+1:]`. -/
def extractLoop (infos : ExcelInfo) : List Row → ExtractState → ExtractState
  | [], st => st
  | row :: rest, st => extractLoop infos rest (extractRow infos st row)

/-- Model of `extractPharmacy` on the rows of the sheet. -/
def extractPharmacy (rows : List Row) (infos : ExcelInfo) :
    Except Error (List PharmacyInfo) :=
  let rows := normalizeRows rows
  let i := headerLoop rows 0
  if i == rows.length then
    .error (.new "cannto find the start line in excel")
  else
    .ok (extractLoop infos (rows.drop (i + 1)) { ps := [], p := none }).ps

/-! ## retrieveAdditionalInfo -/

/-- What one `http.Get` of the geocoder URL followed by `Decode(&result)`
yields: `http.Get` fails; or the decoder fails, either before the root element
(`none`) or after it, having decoded the given complete candidates; or a whole
document with the given candidates (possibly none) is decoded. -/
inductive Attempt where
  | transportFailure
  | decodeFailure (decoded : Option (List Candidate))
  | response (candidates : List Candidate)
  deriving DecidableEq, Repr

/-- The geocoding service: the outcome of the request issued after `n`
earlier requests of the run, for the address in the query. -/
abbrev Geocoder := Nat → String → Attempt

/-- How `retrieveAdditionalInfo` ends: `return nil`, `return err`, or a
run-time panic (nil dereference or index out of range at
`result.Candidate[0]`). -/
inductive Exit where
  | ok
  | fail (e : Error)
  | panic
  deriving DecidableEq, Repr

/-- Variables of the retry loop: the addresses requested so far in the run
(one entry per `http.Get`), the function-level `err`, and `result`. -/
structure RetryState where
  requests : List String
  err : Option Error
  result : Option GeocodeResult
  deriving DecidableEq, Repr

/-- The candidates `result` holds; a nil `result` holds none. -/
def resultCandidates (result : Option GeocodeResult) : List Candidate :=
  match result with
  | none => []
  | some r => r.Candidate

/-- What `Decode(&result)` leaves in `result` once it has read the root
element and decoded the candidates `cs`: `encoding/xml` allocates a nil
`result` and appends every decoded candidate to the slice already there. -/
def decodeInto (result : Option GeocodeResult) (cs : List Candidate) : Option GeocodeResult :=
  some ⟨resultCandidates result ++ cs⟩

/-- The retry loop `for i := 0; i < RETRY; i++`, by the number of iterations
left (`i = RETRY - left`). Every iteration assigns `err`; `result` is declared
before the loop and shared by the attempts, and a decoder that fails keeps the
candidates it has decoded. -/
def retryLoop (geo : Geocoder) (addr : String) : Nat → RetryState → RetryState
  | 0, st => st
  | left + 1, st =>
    let requests := st.requests ++ [addr]
    match geo st.requests.length addr with
    | .transportFailure =>
      retryLoop geo addr left { st with requests := requests, err := some .transport }
    | .decodeFailure none =>
      retryLoop geo addr left { st with requests := requests, err := some .decode }
    | .decodeFailure (some cs) =>
      retryLoop geo addr left
        { requests := requests, err := some .decode, result := decodeInto st.result cs }
    | .response cs =>
      if (resultCandidates (decodeInto st.result cs)).length == 0 then
        retryLoop geo addr left
          { requests := requests, err := some (.new "invalid coordinate"),
            result := decodeInto st.result cs }
      else
        { requests := requests, err := none, result := decodeInto st.result cs }

/-- The lookup loop `for _, rinfo = range rewardInfo { if rinfo.ID ==
info.RewardID { break } }` on the variable `rinfo`, which the range clause
assigns at every iteration. The entries of the loaded slice are non-nil. -/
def findReward (key : String) : List RewardInfo → Option RewardInfo → Option RewardInfo
  | [], rinfo => rinfo
  | t :: rest, _ => if t.ID == key then some t else findReward key rest (some t)

/-- Width of a Go `int` on the 64-bit targets. -/
def intBits : Nat := 64

/-- Two's-complement wrap-around of an integer to a Go `int`. -/
def wrapInt (x : Int) : Int :=
  (x + 2 ^ (intBits - 1)) % 2 ^ intBits - 2 ^ (intBits - 1)

/-- The points loop `for _, f := range info.Facility { if p, ok :=
rinfo.Reward[f]; ok { info.Point += p } }` on the running total. -/
def addPoints (reward : List (String × Int)) : List String → Int → Int
  | [], point => point
  | f :: rest, point =>
    match reward.lookup f with
    | some p => addPoints reward rest (wrapInt (point + p))
    | none => addPoints reward rest point

/-- The reward step on a record once its table `rinfo` is selected: the
points loop run on `info.Point`. -/
def rewardStep (rinfo : RewardInfo) (info : PharmacyInfo) : PharmacyInfo :=
  { info with Point := addPoints rinfo.Reward info.Facility info.Point }

/-- What the loop body of `retrieveAdditionalInfo` does to one record:
the record after the body, the requests issued so far, `err`, and the exit
taken if the body leaves the function. -/
structure StepResult where
  info : PharmacyInfo
  requests : List String
  err : Option Error
  exit : Option Exit
  deriving DecidableEq, Repr

/-- Body of the record loop of `retrieveAdditionalInfo` for one record. -/
def enrichRecord (geo : Geocoder) (rewardInfo : List RewardInfo)
    (requests : List String) (err : Option Error) (info : PharmacyInfo) : StepResult :=
  let st := retryLoop geo info.Address RETRY
    { requests := requests, err := err, result := none }
  match st.err with
  | some e =>
    { info := info, requests := st.requests, err := st.err,
      exit := some (.fail (.wrap e "failed to get address search")) }
  | none =>
    match st.result with
    | some ⟨c :: _⟩ =>
      let info1 := { info with Lon := c.Longitude, Lat := c.Latitude }
      match findReward info1.RewardID rewardInfo none with
      | none =>
        { info := info1, requests := st.requests, err := none,
          exit := some (.fail (.new "failed to find reward info")) }
      | some rinfo =>
        { info := rewardStep rinfo info1, requests := st.requests, err := none, exit := none }
    | _ => { info := info, requests := st.requests, err := none, exit := some .panic }

/-- The record loop `for i, info := range infos` followed by `return nil`:
the records after the run, the requests issued, and how the function ends. -/
def enrichLoop (geo : Geocoder) (rewardInfo : List RewardInfo) :
    List PharmacyInfo → List String → Option Error → List PharmacyInfo × List String × Exit
  | [], requests, _ => ([], requests, .ok)
  | info :: rest, requests, err =>
    let r := enrichRecord geo rewardInfo requests err info
    match r.exit with
    | some e => (r.info :: rest, r.requests, e)
    | none =>
      let out := enrichLoop geo rewardInfo rest r.requests r.err
      (r.info :: out.1, out.2.1, out.2.2)

/-- Model of `retrieveAdditionalInfo` on the loaded reward tables: at the
loop `err` is nil and no request has been issued. -/
def retrieveAdditionalInfo (geo : Geocoder) (rewardInfo : List RewardInfo)
    (infos : List PharmacyInfo) : List PharmacyInfo × List String × Exit :=
  enrichLoop geo rewardInfo infos [] none

/-! ## Notions of the specification -/

/-- The rows after the header row of a sheet, normalized. -/
def dataRows (raw : List Row) : List Row :=
  (normalizeRows raw).drop (headerLoop (normalizeRows raw) 0 + 1)

/-- A row is a pharmacy row when its category cell is the literal "薬局". -/
def isPharmacy (row : Row) : Bool :=
  cell row CLASS == "薬局"

/-- The retained rows: the pharmacy rows after the header, in document order. -/
def retainedRows (raw : List Row) : List Row :=
  (dataRows raw).filter isPharmacy

/-- Two rows carry the same identifier. -/
def sameID (a b : Row) : Bool :=
  cell a ID == cell b ID

/-- The maximal contiguous runs of equal identifiers among the retained rows. -/
def idRuns (raw : List Row) : List (List Row) :=
  (retainedRows raw).splitBy sameID

/-- The non-empty facility-name cells of the rows of a run, in row order. -/
def facilityNames (run : List Row) : List String :=
  (run.map (fun row => cell row FACIL)).filter (fun f => f != "")

/-- The fixed fields of a record: prefecture code, prefecture, ID, name,
postal code, address, phone, fax. -/
def fixedFields (rec : PharmacyInfo) :
    String × String × String × String × String × String × String × String :=
  (rec.PrefectureID, rec.Prefecture, rec.ID, rec.Name, rec.PostID, rec.Address,
    rec.Telephone, rec.Fax)

/-- The record the specification assigns to a run: fixed fields from the first
row of the run, facility sequence from all its rows. -/
def recordOfRun (infos : ExcelInfo) (run : List Row) : PharmacyInfo :=
  { newPharmacy infos (run.headD []) with Facility := facilityNames run }

/-- No identifier reoccurs non-contiguously in the list: whenever two
positions hold the same identifier, every position between them holds it. -/
def Contiguous (ids : List String) : Prop :=
  ∀ (i j k : Nat) (a : String), i < j → j < k →
    ids.get? i = some a → ids.get? k = some a → ids.get? j = some a

/-- The sheet with every non-pharmacy row after the header deleted. -/
def dropNonPharmacy (raw : List Row) : List Row :=
  let i := headerLoop (normalizeRows raw) 0
  raw.take (i + 1) ++ (raw.drop (i + 1)).filter (fun row => isPharmacy (normalizeRow row))

/-! ## Auxiliary functions for the record loop -/

/-- The conditional append of the facility cell of a row to a record. -/
def addFacility (row : Row) (rec : PharmacyInfo) : PharmacyInfo :=
  if cell row FACIL != "" then { rec with Facility := rec.Facility ++ [cell row FACIL] }
  else rec

/-- The record loop on retained rows, with the record `p` points to held
apart from the records before it. -/
def absorb (infos : ExcelInfo) : PharmacyInfo → List Row → List PharmacyInfo
  | cur, [] => [cur]
  | cur, row :: rest =>
    if cur.ID != cell row ID then
      cur :: absorb infos (addFacility row (newPharmacy infos row)) rest
    else absorb infos (addFacility row cur) rest

/-- The record loop on retained rows, from `p == nil`. -/
def groupRows (infos : ExcelInfo) : List Row → List PharmacyInfo
  | [] => []
  | row :: rest => absorb infos (addFacility row (newPharmacy infos row)) rest

/-- Extend a record by the facility sequence of the first record of a list. -/
def mergeInto (cur : PharmacyInfo) : List PharmacyInfo → List PharmacyInfo
  | [] => [cur]
  | x :: xs => { cur with Facility := cur.Facility ++ x.Facility } :: xs

/-- The records the specification assigns to a list of retained rows. -/
def recordsOf (infos : ExcelInfo) (rows : List Row) : List PharmacyInfo :=
  (rows.splitBy sameID).map (recordOfRun infos)

/-- A value of Go's `int`: in the range of a 64-bit two's-complement integer. -/
def isInt (x : Int) : Prop :=
  -(2 ^ (intBits - 1)) ≤ x ∧ x < 2 ^ (intBits - 1)

instance (x : Int) : Decidable (isInt x) := by
  unfold isInt
  infer_instance

/-- The sum, over every occurrence of a name in the facility sequence, of the
table's value for the name; a name that is not a key counts 0. -/
def pointsOf (reward : List (String × Int)) (facility : List String) : Int :=
  (facility.map (fun f => (reward.lookup f).getD 0)).sum

/-- The candidates the decoder stores into `result` during an attempt. -/
def Attempt.decoded : Attempt → List Candidate
  | .transportFailure => []
  | .decodeFailure none => []
  | .decodeFailure (some cs) => cs
  | .response cs => cs

/-- The error an attempt without a usable response leaves in `err`. -/
def Attempt.error : Attempt → Error
  | .transportFailure => .transport
  | .decodeFailure _ => .decode
  | .response _ => .new "invalid coordinate"

/-- The record `out` is `info` enriched: it has received the coordinates of
the first candidate decoded in an attempt for its address and then the points
of one of the loaded tables. -/
def Enriched (geo : Geocoder) (tables : List RewardInfo) (info out : PharmacyInfo) : Prop :=
  ∃ (n : Nat) (c : Candidate) (cs : List Candidate) (rinfo : RewardInfo),
    (geo n info.Address).decoded = c :: cs ∧ rinfo ∈ tables ∧
    out = rewardStep rinfo { info with Lon := c.Longitude, Lat := c.Latitude }

/-- The requests of a run that issued `counts[j]` requests for record `j`:
one block per record, in record order. -/
def requestBlocks (counts : List Nat) (infos : List PharmacyInfo) : List String :=
  (List.zipWith (fun n info => List.replicate n info.Address) counts infos).flatten

/-! ## Sample inputs -/

/-- A source descriptor with reward key "K1". -/
def sampleSource : ExcelInfo :=
  { Department := "関東信越厚生局", OriginURL := "", RewardID := "K1", ExcelURL := [],
    Desc := "note" }

/-- A header row: the marker in column 4. -/
def headerRow : Row :=
  ["", "都道府県コード", "都道府県名", "区分", " 医療機関番号 "]

/-- A data row with the given category, identifier and facility name. -/
def sampleRow (cls id facil : String) : Row :=
  ["", "13", "東京都", cls, id, "", "", "N-" ++ id, "100-0001", "addr-" ++ id, "03-1", "03-2",
    "", facil]

/-- The record extracted from `sampleRow "薬局" id _` under `sampleSource`. -/
def sampleRecord (id : String) (facility : List String) : PharmacyInfo :=
  { PrefectureID := "13", Prefecture := "東京都", ID := id, Name := "N-" ++ id,
    PostID := "100-0001", Address := "addr-" ++ id, Telephone := "03-1", Fax := "03-2",
    Facility := facility, RewardID := "K1", Point := 0, Lat := ⟨0⟩, Lon := ⟨0⟩, Desc := "note" }

/-- Identifiers A, A, B, A in pharmacy rows. -/
def sheetAABA : List Row :=
  [headerRow, sampleRow "薬局" "A" "f1", sampleRow "薬局" "A" "f2", sampleRow "薬局" "B" "f3",
    sampleRow "薬局" "A" "f4"]

/-- Three consecutive pharmacy rows of identifier "A001". -/
def sheetXYZ : List Row :=
  [headerRow, sampleRow "薬局" "A001" "X", sampleRow "薬局" "A001" "Y",
    sampleRow "薬局" "A001" "Z"]

/-- A clinic row between two pharmacy rows of the same identifier. -/
def sheetClinic : List Row :=
  [headerRow, sampleRow "薬局" "A001" "X", sampleRow "医科" "A001" "Q",
    sampleRow "薬局" "A001" "Y"]

/-- The header at row index 5, after five rows without the marker. -/
def sheetHeader5 : List Row :=
  [[], ["title"], [], ["", "", "", "", "x"], [], headerRow, sampleRow "薬局" "A001" "X"]

/-- The reward table of the specification example and a record with the
facility sequence AuthA, AuthC, AuthA. -/
def tableK1 : RewardInfo :=
  { ID := "K1", Reward := [("AuthA", 10), ("AuthB", 5)] }

def recordAuth : PharmacyInfo :=
  sampleRecord "A001" ["AuthA", "AuthC", "AuthA"]

/-- A geocoder that fails on the first three requests and then answers with
the candidate (lat 35.0, lon 139.0), by the bit patterns of the two floats. -/
def geoFourth : Geocoder := fun n _ =>
  if n = 0 then .transportFailure
  else if n = 1 then .decodeFailure none
  else if n = 2 then .response []
  else .response [{ Longitude := ⟨0x4061600000000000⟩, Latitude := ⟨0x4041800000000000⟩ }]

/-- A geocoder that always answers with zero candidates. -/
def geoEmpty : Geocoder := fun _ _ => .response []

/-- The candidate (lat 35.0, lon 139.0). -/
def tokyo : Candidate :=
  { Longitude := ⟨0x4061600000000000⟩, Latitude := ⟨0x4041800000000000⟩ }

/-- A geocoder that resolves the address of record "A" and no other. -/
def geoOnlyA : Geocoder := fun _ addr =>
  if addr = "addr-A" then .response [tokyo] else .response []

/-- A geocoder that resolves every address at once. -/
def geoAlways : Geocoder := fun _ _ => .response [tokyo]

/-- A record whose reward key "K2" is the ID of no loaded table. -/
def recordK2 : PharmacyInfo :=
  { sampleRecord "A001" ["AuthA"] with RewardID := "K2" }

/-- Three records with the addresses "addr-A", "addr-B", "addr-C". -/
def recordsABC : List PharmacyInfo :=
  [sampleRecord "A" ["AuthA"], sampleRecord "B" ["AuthB"], sampleRecord "C" []]

/-- The candidate (lat 34.0, lon 135.0). -/
def osaka : Candidate :=
  { Longitude := ⟨0x4060E00000000000⟩, Latitude := ⟨0x4041000000000000⟩ }

/-- A geocoder whose first body is cut after one complete candidate, whose
second document has no candidate, and which answers well from the third
request on. -/
def geoTruncated : Geocoder := fun n _ =>
  if n = 0 then .decodeFailure (some [osaka])
  else if n = 1 then .response []
  else .response [tokyo]

/-- A geocoder whose first body is cut after one complete candidate and whose
later documents all have no candidate. -/
def geoTruncatedThenEmpty : Geocoder := fun n _ =>
  if n = 0 then .decodeFailure (some [osaka]) else .response []

/-- Identifiers A, A, B in pharmacy rows. -/
def sheetAAB : List Row :=
  [headerRow, sampleRow "薬局" "A" "f1", sampleRow "薬局" "A" "f2", sampleRow "薬局" "B" "f3"]

/-! ## Normalization -/

theorem padLoop_eq (n : Nat) (row : Row) :
    padLoop n row = row ++ List.replicate n "" := by
  induction n generalizing row with
  | zero => simp [padLoop]
  | succ n ih =>
    rw [padLoop, ih, List.replicate_succ, List.append_assoc]
    rfl

theorem normalizeRow_eq (row : Row) :
    normalizeRow row = row.map TrimSpace ++ List.replicate (FACIL + 1 - row.length) "" := by
  rw [normalizeRow, padLoop_eq]

theorem length_normalizeRow (row : Row) :
    (normalizeRow row).length = max row.length (FACIL + 1) := by
  rw [normalizeRow_eq]
  simp only [List.length_append, List.length_map, List.length_replicate]
  omega

theorem facil_lt_length_normalizeRow (row : Row) : FACIL < (normalizeRow row).length := by
  rw [length_normalizeRow]
  omega

/-- C9: the normalization pass keeps the number and order of the rows; the
row at every position has length `max (original length) (FACIL + 1)`, which
exceeds `FACIL = 13`; its first cells are the original cells trimmed, in
order, every cell after them is empty, and the columns 1, 2, 3, 4, 7, 8, 9,
10, 11 and 13 are within its bounds. -/
theorem normalizeRows_spec (rows : List Row) :
    (normalizeRows rows).length = rows.length ∧
    ∀ (j : Nat) (row : Row), rows.get? j = some row →
      ∃ out, (normalizeRows rows).get? j = some out ∧
        out.length = max row.length (FACIL + 1) ∧ FACIL < out.length ∧ 13 < out.length ∧
        out.take row.length = row.map TrimSpace ∧
        (∀ i, i < row.length → out.get? i = (row.get? i).map TrimSpace) ∧
        (∀ i, row.length ≤ i → i < out.length → out.get? i = some "") ∧
        (∀ c ∈ [PREFID, PREF, CLASS, ID, NAME, POSTID, ADDRESS, TEL, FAX, FACIL],
          c < out.length) := by
  refine ⟨by simp [normalizeRows], ?_⟩
  intro j row hj
  refine ⟨normalizeRow row, ?_, length_normalizeRow row,
    facil_lt_length_normalizeRow row, facil_lt_length_normalizeRow row, ?_, ?_, ?_, ?_⟩
  · rw [normalizeRows, List.get?_eq_getElem?, List.getElem?_map, ← List.get?_eq_getElem?, hj]
    rfl
  · rw [normalizeRow_eq]
    have h : row.length = (row.map TrimSpace).length := by simp
    rw [h, List.take_left]
  · intro i hi
    rw [normalizeRow_eq]
    simp only [List.get?_eq_getElem?]
    rw [List.getElem?_append_left (by simpa using hi)]
    simp
  · intro i h1 h2
    rw [normalizeRow_eq] at h2 ⊢
    simp only [List.get?_eq_getElem?]
    rw [List.getElem?_append_right (by simpa using h1)]
    simp only [List.length_append, List.length_map, List.length_replicate] at h2
    rw [List.getElem?_replicate]
    simp only [List.length_map]
    rw [if_pos (by omega)]
  · intro c hc
    have h := facil_lt_length_normalizeRow row
    simp only [List.mem_cons, List.mem_singleton, List.not_mem_nil, or_false] at hc
    rcases hc with h' | h' | h' | h' | h' | h' | h' | h' | h' | h' <;> subst h' <;>
      simp only [PREFID, PREF, CLASS, ID, NAME, POSTID, ADDRESS, TEL, FAX, FACIL] at h ⊢ <;>
      omega

theorem normalizeRows_spec_witness :
    [["a"], [" b ", "c\t"]].get? 1 = some [" b ", "c\t"] ∧
    ∃ out, (normalizeRows [["a"], [" b ", "c\t"]]).get? 1 = some out ∧
      out.length = max [" b ", "c\t"].length (FACIL + 1) ∧ FACIL < out.length ∧
      13 < out.length ∧
      out.take [" b ", "c\t"].length = [" b ", "c\t"].map TrimSpace ∧
      (∀ i, i < [" b ", "c\t"].length →
        out.get? i = ([" b ", "c\t"].get? i).map TrimSpace) ∧
      (∀ i, [" b ", "c\t"].length ≤ i → i < out.length → out.get? i = some "") ∧
      (∀ c ∈ [PREFID, PREF, CLASS, ID, NAME, POSTID, ADDRESS, TEL, FAX, FACIL],
        c < out.length) :=
  ⟨by decide, (normalizeRows_spec [["a"], [" b ", "c\t"]]).2 1 [" b ", "c\t"] (by decide)⟩

/-! ## Header search -/

theorem headerLoop_eq_findIdx (rows : List Row) (k : Nat) :
    headerLoop rows k = k + rows.findIdx isHeader := by
  induction rows generalizing k with
  | nil => simp [headerLoop]
  | cons row rest ih =>
    rw [headerLoop, List.findIdx_cons]
    by_cases h : isHeader row
    · simp [h]
    · simp only [h, Bool.false_eq_true, if_false, cond_false]
      rw [ih]
      omega

theorem headerLoop_le (rows : List Row) (k : Nat) : headerLoop rows k ≤ k + rows.length := by
  induction rows generalizing k with
  | nil => simp [headerLoop]
  | cons row rest ih =>
    rw [headerLoop]
    split
    · omega
    · have := ih (k + 1)
      simp only [List.length_cons]
      omega

theorem headerLoop_eq_length_iff (rows : List Row) (k : Nat) :
    headerLoop rows k = k + rows.length ↔ ∀ row ∈ rows, isHeader row = false := by
  induction rows generalizing k with
  | nil => simp [headerLoop]
  | cons row rest ih =>
    rw [headerLoop]
    by_cases h : isHeader row
    · simp [h]
    · have h2 := ih (k + 1)
      simp only [h, Bool.false_eq_true, if_false, List.length_cons, List.mem_cons,
        forall_eq_or_imp, Bool.not_eq_true, true_and]
      rw [← h2]
      omega

theorem headerLoop_first (rows : List Row) (k i : Nat) (row : Row)
    (hi : rows.get? i = some row) (hrow : isHeader row = true)
    (hbefore : ∀ j r, j < i → rows.get? j = some r → isHeader r = false) :
    headerLoop rows k = k + i := by
  induction rows generalizing k i with
  | nil => simp at hi
  | cons r rest ih =>
    rw [headerLoop]
    cases i with
    | zero =>
      simp only [List.get?_cons_zero, Option.some.injEq] at hi
      subst hi
      simp [hrow]
    | succ i =>
      have h0 : isHeader r = false := hbefore 0 r (by omega) (by simp)
      simp only [h0, Bool.false_eq_true, if_false]
      rw [ih (k + 1) i (by simpa using hi)
        (fun j r' hj hr => hbefore (j + 1) r' (by omega) (by simpa using hr))]
      omega

theorem isHeader_of_wide (row : Row) (h : FACIL < row.length) :
    isHeader row = (cell row ID == "医療機関番号") := by
  have h2 : row.length > ID := by
    simp only [FACIL, ID] at h ⊢
    omega
  simp [isHeader, h2]

theorem isHeader_normalized (raw : List Row) (row : Row) (h : row ∈ normalizeRows raw) :
    isHeader row = (cell row ID == "医療機関番号") := by
  simp only [normalizeRows, List.mem_map] at h
  obtain ⟨r, _, rfl⟩ := h
  exact isHeader_of_wide _ (facil_lt_length_normalizeRow r)

theorem findIdx_agree (p q : Row → Bool) (rows : List Row)
    (h : ∀ row ∈ rows, p row = q row) : rows.findIdx p = rows.findIdx q := by
  induction rows with
  | nil => rfl
  | cons row rest ih =>
    rw [List.findIdx_cons, List.findIdx_cons, h row (List.mem_cons_self _ _),
      ih (fun r hr => h r (List.mem_cons_of_mem _ hr))]

/-- C8: on the normalized rows the header search yields the index of the
first row whose cell in column 4 is the marker (the number of rows when there
is none); extraction fails with the header-not-found error exactly when no
row has that cell; and when row `i` is the first with the marker, the header
index is `i` and the records are extracted from the rows after index `i`. -/
theorem headerLoop_spec (raw : List Row) (infos : ExcelInfo) :
    headerLoop (normalizeRows raw) 0 =
      (normalizeRows raw).findIdx (fun row => cell row ID == "医療機関番号") ∧
    (extractPharmacy raw infos = .error (.new "cannto find the start line in excel") ↔
      ∀ row ∈ normalizeRows raw, cell row ID ≠ "医療機関番号") ∧
    (extractPharmacy [] infos = .error (.new "cannto find the start line in excel")) ∧
    (∀ (i : Nat) (row : Row), (normalizeRows raw).get? i = some row →
      cell row ID = "医療機関番号" →
      (∀ j r, j < i → (normalizeRows raw).get? j = some r → cell r ID ≠ "医療機関番号") →
      headerLoop (normalizeRows raw) 0 = i ∧
      extractPharmacy raw infos =
        .ok (extractLoop infos ((normalizeRows raw).drop (i + 1)) { ps := [], p := none }).ps) := by
  refine ⟨?_, ?_, rfl, ?_⟩
  · rw [headerLoop_eq_findIdx, Nat.zero_add]
    exact findIdx_agree _ _ _ (fun row hrow => isHeader_normalized raw row hrow)
  · have h := headerLoop_eq_length_iff (normalizeRows raw) 0
    rw [Nat.zero_add] at h
    simp only [extractPharmacy, beq_iff_eq]
    constructor
    · intro he row hrow
      by_cases hl : headerLoop (normalizeRows raw) 0 = (normalizeRows raw).length
      · have := h.1 hl row hrow
        rw [isHeader_normalized raw row hrow] at this
        simpa using this
      · simp [hl] at he
    · intro hall
      have hl : headerLoop (normalizeRows raw) 0 = (normalizeRows raw).length := by
        apply h.2
        intro row hrow
        rw [isHeader_normalized raw row hrow]
        simpa using hall row hrow
      simp [hl]
  · intro i row hi hrow hbefore
    have hmem : row ∈ normalizeRows raw := List.get?_mem hi
    have hlt : i < (normalizeRows raw).length := by
      rw [List.get?_eq_some] at hi
      exact hi.1
    have hidx : headerLoop (normalizeRows raw) 0 = i := by
      rw [headerLoop_first (normalizeRows raw) 0 i row hi
        (by rw [isHeader_normalized raw row hmem]; simpa using hrow)
        (fun j r hj hr => by
          rw [isHeader_normalized raw r (List.get?_mem hr)]
          simpa using hbefore j r hj hr)]
      omega
    refine ⟨hidx, ?_⟩
    simp only [extractPharmacy, hidx, beq_iff_eq]
    rw [if_neg (by omega)]

/-! ## The record loop -/

theorem appendFacility_at (f : String) (pre : List PharmacyInfo) (x : PharmacyInfo)
    (xs : List PharmacyInfo) :
    appendFacility f pre.length (pre ++ x :: xs) =
      pre ++ { x with Facility := x.Facility ++ [f] } :: xs := by
  induction pre with
  | nil => rfl
  | cons y ys ih => simp [appendFacility, ih]

theorem extractRow_skip (infos : ExcelInfo) (st : ExtractState) (row : Row)
    (h : isPharmacy row = false) : extractRow infos st row = st := by
  have h1 : ¬ cell row CLASS = "薬局" := by simpa [isPharmacy] using h
  simp [extractRow, h1]

theorem extractRow_first (infos : ExcelInfo) (row : Row) (h : isPharmacy row = true) :
    extractRow infos { ps := [], p := none } row =
      { ps := [addFacility row (newPharmacy infos row)], p := some 0 } := by
  have h1 : cell row CLASS = "薬局" := by simpa [isPharmacy] using h
  by_cases hf : cell row FACIL = ""
  · simp [extractRow, startsNew, addFacility, h1, hf]
  · simp [extractRow, startsNew, addFacility, h1, hf, appendFacility]

theorem extractRow_current (infos : ExcelInfo) (pre : List PharmacyInfo) (cur : PharmacyInfo)
    (row : Row) (h : isPharmacy row = true) :
    extractRow infos { ps := pre ++ [cur], p := some pre.length } row =
      if cur.ID != cell row ID then
        { ps := (pre ++ [cur]) ++ [addFacility row (newPharmacy infos row)],
          p := some (pre ++ [cur]).length }
      else { ps := pre ++ [addFacility row cur], p := some pre.length } := by
  have h1 : cell row CLASS = "薬局" := by simpa [isPharmacy] using h
  have hget : (pre ++ [cur]).get? pre.length = some cur := by simp
  by_cases hid : cur.ID = cell row ID
  · by_cases hf : cell row FACIL = ""
    · simp [extractRow, startsNew, addFacility, h1, hget, hid, hf]
    · have h2 := appendFacility_at (cell row FACIL) pre cur []
      simp [extractRow, startsNew, addFacility, h1, hget, hid, hf, h2]
  · by_cases hf : cell row FACIL = ""
    · simp [extractRow, startsNew, addFacility, h1, hget, hid, hf]
    · have h2 := appendFacility_at (cell row FACIL) (pre ++ [cur]) (newPharmacy infos row) []
      simp only [List.length_append, List.length_singleton, List.append_assoc,
        List.singleton_append] at h2
      simp [extractRow, startsNew, addFacility, h1, hget, hid, hf, h2]

theorem extractLoop_current (infos : ExcelInfo) (rows : List Row) (pre : List PharmacyInfo)
    (cur : PharmacyInfo) :
    (extractLoop infos rows { ps := pre ++ [cur], p := some pre.length }).ps =
      pre ++ absorb infos cur (rows.filter isPharmacy) := by
  induction rows generalizing pre cur with
  | nil => simp [extractLoop, absorb]
  | cons row rest ih =>
    rw [extractLoop]
    by_cases h : isPharmacy row = true
    · rw [extractRow_current infos pre cur row h, List.filter_cons_of_pos h, absorb]
      by_cases hid : (cur.ID != cell row ID) = true
      · rw [if_pos hid, if_pos hid, ih]
        simp
      · rw [if_neg hid, if_neg hid, ih]
    · simp only [Bool.not_eq_true] at h
      rw [extractRow_skip infos _ row h, ih, List.filter_cons_of_neg (by simp [h])]

theorem extractLoop_init (infos : ExcelInfo) (rows : List Row) :
    (extractLoop infos rows { ps := [], p := none }).ps =
      groupRows infos (rows.filter isPharmacy) := by
  induction rows with
  | nil => simp [extractLoop, groupRows]
  | cons row rest ih =>
    rw [extractLoop]
    by_cases h : isPharmacy row = true
    · rw [extractRow_first infos row h, List.filter_cons_of_pos h, groupRows]
      have := extractLoop_current infos rest [] (addFacility row (newPharmacy infos row))
      simpa using this
    · simp only [Bool.not_eq_true] at h
      rw [extractRow_skip infos _ row h, ih, List.filter_cons_of_neg (by simp [h])]

theorem extractPharmacy_ok_iff (raw : List Row) (infos : ExcelInfo) (ps : List PharmacyInfo) :
    extractPharmacy raw infos = .ok ps ↔
      headerLoop (normalizeRows raw) 0 < (normalizeRows raw).length ∧
        ps = groupRows infos (retainedRows raw) := by
  have hle := headerLoop_le (normalizeRows raw) 0
  simp only [extractPharmacy, beq_iff_eq, retainedRows, dataRows]
  rw [extractLoop_init]
  by_cases hl : headerLoop (normalizeRows raw) 0 = (normalizeRows raw).length
  · simp [hl]
  · simp only [hl, if_false, Except.ok.injEq]
    constructor
    · intro h
      exact ⟨by omega, h.symm⟩
    · intro h
      exact h.2.symm

/-! ## Runs of equal identifiers -/

theorem splitByLoop_done {α : Type} (R : α → α → Bool) (l : List α) (a : α) (g : List α)
    (gs : List (List α)) :
    List.splitBy.loop R l a g gs = gs.reverse ++ List.splitBy.loop R l a g [] := by
  induction l generalizing a g gs with
  | nil => simp [List.splitBy.loop]
  | cons b l ih =>
    rw [List.splitBy.loop, List.splitBy.loop]
    cases R a b with
    | true => exact ih b (a :: g) gs
    | false =>
      show List.splitBy.loop R l b [] ((a :: g).reverse :: gs) =
        gs.reverse ++ List.splitBy.loop R l b [] [(a :: g).reverse]
      rw [ih b [] ((a :: g).reverse :: gs), ih b [] [(a :: g).reverse]]
      simp

theorem splitByLoop_group {α : Type} (R : α → α → Bool) (l : List α) (a : α) (g : List α) :
    List.splitBy.loop R l a g [] =
      List.modifyHead (fun run => g.reverse ++ run) (List.splitBy.loop R l a [] []) := by
  induction l generalizing a g with
  | nil => simp [List.splitBy.loop]
  | cons b l ih =>
    rw [List.splitBy.loop, List.splitBy.loop]
    cases R a b with
    | true =>
      show List.splitBy.loop R l b (a :: g) [] =
        List.modifyHead (fun run => g.reverse ++ run) (List.splitBy.loop R l b [a] [])
      rw [ih b (a :: g), ih b [a]]
      cases List.splitBy.loop R l b [] [] <;> simp
    | false =>
      show List.splitBy.loop R l b [] [(a :: g).reverse] =
        List.modifyHead (fun run => g.reverse ++ run) (List.splitBy.loop R l b [] [[a].reverse])
      rw [splitByLoop_done R l b [] [(a :: g).reverse], splitByLoop_done R l b [] [[a].reverse]]
      simp

theorem splitBy_cons_cons {α : Type} (R : α → α → Bool) (a b : α) (l : List α) :
    (a :: b :: l).splitBy R =
      if R a b then List.modifyHead (fun run => a :: run) ((b :: l).splitBy R)
      else [a] :: (b :: l).splitBy R := by
  show List.splitBy.loop R (b :: l) a [] [] = _
  rw [List.splitBy.loop]
  cases h : R a b with
  | true =>
    show List.splitBy.loop R l b [a] [] = _
    rw [splitByLoop_group R l b [a]]
    simp [List.splitBy]
  | false =>
    show List.splitBy.loop R l b [] [[a].reverse] = _
    rw [splitByLoop_done R l b [] [[a].reverse]]
    simp [List.splitBy]

theorem splitBy_cons_ne_nil {α : Type} (R : α → α → Bool) (a : α) (l : List α) :
    (a :: l).splitBy R ≠ [] := by
  intro h
  have := List.flatten_splitBy R (a :: l)
  rw [h] at this
  simp at this

theorem recordsOf_nil (infos : ExcelInfo) : recordsOf infos [] = [] := rfl

theorem recordsOf_single (infos : ExcelInfo) (r : Row) :
    recordsOf infos [r] = [addFacility r (newPharmacy infos r)] := by
  simp only [recordsOf, List.splitBy, List.splitBy.loop, List.reverse_cons, List.reverse_nil,
    List.nil_append, List.map_cons, List.map_nil, recordOfRun, List.headD_cons, facilityNames,
    addFacility]
  by_cases hf : cell r FACIL = ""
  · simp [hf, newPharmacy]
  · simp [hf, newPharmacy]

theorem recordOfRun_cons (infos : ExcelInfo) (r : Row) (run : List Row) :
    recordOfRun infos (r :: run) =
      { addFacility r (newPharmacy infos r) with
        Facility := (addFacility r (newPharmacy infos r)).Facility ++ facilityNames run } := by
  simp only [recordOfRun, List.headD_cons, facilityNames, addFacility, List.map_cons]
  by_cases hf : cell r FACIL = ""
  · simp [hf, newPharmacy]
  · simp [hf, newPharmacy]

theorem recordsOf_cons_cons (infos : ExcelInfo) (r r2 : Row) (rest : List Row) :
    recordsOf infos (r :: r2 :: rest) =
      if sameID r r2 then
        mergeInto (addFacility r (newPharmacy infos r)) (recordsOf infos (r2 :: rest))
      else addFacility r (newPharmacy infos r) :: recordsOf infos (r2 :: rest) := by
  simp only [recordsOf]
  rw [splitBy_cons_cons]
  have hne := splitBy_cons_ne_nil sameID r2 rest
  by_cases h : sameID r r2 = true
  · rw [if_pos h, if_pos h]
    cases hs : (r2 :: rest).splitBy sameID with
    | nil => exact absurd hs hne
    | cons run runs =>
      simp only [List.modifyHead_cons, List.map_cons, mergeInto]
      rw [recordOfRun_cons]
      simp [recordOfRun]
  · rw [if_neg h, if_neg h]
    have := recordsOf_single infos r
    simp only [recordsOf, List.splitBy, List.splitBy.loop, List.reverse_cons, List.reverse_nil,
      List.nil_append, List.map_cons, List.map_nil, List.cons.injEq, and_true] at this
    simp only [List.map_cons, this]

theorem addFacility_ID (row : Row) (rec : PharmacyInfo) : (addFacility row rec).ID = rec.ID := by
  unfold addFacility
  split <;> rfl

theorem mergeInto_addFacility (cur : PharmacyInfo) (infos : ExcelInfo) (r : Row)
    (l : List PharmacyInfo) :
    mergeInto cur (mergeInto (addFacility r (newPharmacy infos r)) l) =
      mergeInto (addFacility r cur) l := by
  by_cases hf : cell r FACIL = ""
  · cases l <;> simp [mergeInto, addFacility, hf, newPharmacy]
  · cases l <;> simp [mergeInto, addFacility, hf, newPharmacy]

theorem absorb_eq (infos : ExcelInfo) (rows : List Row) (cur : PharmacyInfo) :
    absorb infos cur rows =
      match rows with
      | [] => [cur]
      | r :: rest =>
        if cur.ID = cell r ID then mergeInto cur (recordsOf infos (r :: rest))
        else cur :: recordsOf infos (r :: rest) := by
  induction rows generalizing cur with
  | nil => rfl
  | cons r rest ih =>
    have hnew : absorb infos (addFacility r (newPharmacy infos r)) rest =
        recordsOf infos (r :: rest) := by
      rw [ih]
      cases rest with
      | nil => rw [recordsOf_single]
      | cons r2 rest2 =>
        simp only [recordsOf_cons_cons, addFacility_ID, sameID, newPharmacy, beq_iff_eq]
    simp only [absorb]
    by_cases hid : cur.ID = cell r ID
    · simp only [hid, bne_self_eq_false, Bool.false_eq_true, if_false, if_true]
      rw [ih]
      cases rest with
      | nil =>
        rw [recordsOf_single]
        have := mergeInto_addFacility cur infos r []
        simpa [mergeInto] using this.symm
      | cons r2 rest2 =>
        simp only [addFacility_ID, hid]
        rw [recordsOf_cons_cons]
        by_cases h2 : cell r ID = cell r2 ID
        · simp only [h2, if_true, sameID, beq_self_eq_true]
          rw [mergeInto_addFacility]
        · simp only [h2, if_false, sameID, beq_iff_eq]
          have := mergeInto_addFacility cur infos r []
          simp only [mergeInto] at this
          simp only [mergeInto, List.cons.injEq, and_true]
          simpa using this.symm
    · have hne : (cur.ID != cell r ID) = true := by simpa using hid
      rw [if_pos hne, if_neg hid, hnew]

theorem groupRows_eq_recordsOf (infos : ExcelInfo) (rows : List Row) :
    groupRows infos rows = recordsOf infos rows := by
  cases rows with
  | nil => rfl
  | cons r rest =>
    rw [groupRows, absorb_eq]
    cases rest with
    | nil => rw [recordsOf_single]
    | cons r2 rest2 =>
      simp only [recordsOf_cons_cons, addFacility_ID, sameID, newPharmacy, beq_iff_eq]

/-! ## Extraction -/

theorem extractPharmacy_eq (raw : List Row) (infos : ExcelInfo) :
    extractPharmacy raw infos =
      if headerLoop (normalizeRows raw) 0 = (normalizeRows raw).length then
        .error (.new "cannto find the start line in excel")
      else .ok (groupRows infos (retainedRows raw)) := by
  simp only [extractPharmacy, beq_iff_eq, retainedRows, dataRows]
  rw [extractLoop_init]

theorem extractPharmacy_ok (raw : List Row) (infos : ExcelInfo) (ps : List PharmacyInfo)
    (h : extractPharmacy raw infos = .ok ps) : ps = recordsOf infos (retainedRows raw) := by
  rw [extractPharmacy_eq] at h
  split at h
  · cases h
  · rw [groupRows_eq_recordsOf] at h
    cases h
    rfl

theorem map_ID_absorb (infos : ExcelInfo) (rows : List Row) (cur : PharmacyInfo) :
    (absorb infos cur rows).map (fun rec => rec.ID) =
      List.destutter' (fun a b => a ≠ b) cur.ID (rows.map (fun row => cell row ID)) := by
  induction rows generalizing cur with
  | nil => rfl
  | cons r rest ih =>
    rw [absorb, List.map_cons, List.destutter'_cons]
    by_cases hid : cur.ID = cell r ID
    · simp only [hid, bne_self_eq_false, Bool.false_eq_true, if_false, ne_eq,
        not_true_eq_false]
      rw [ih, addFacility_ID, hid]
    · have hne : (cur.ID != cell r ID) = true := by simpa using hid
      rw [if_pos hne, if_pos hid, List.map_cons, ih, addFacility_ID]
      rfl

theorem map_ID_groupRows (infos : ExcelInfo) (rows : List Row) :
    (groupRows infos rows).map (fun rec => rec.ID) =
      List.destutter (fun a b => a ≠ b) (rows.map (fun row => cell row ID)) := by
  cases rows with
  | nil => rfl
  | cons r rest =>
    rw [groupRows, map_ID_absorb, addFacility_ID]
    rfl

theorem map_ID_extractPharmacy (raw : List Row) (infos : ExcelInfo) (ps : List PharmacyInfo)
    (h : extractPharmacy raw infos = .ok ps) :
    ps.map (fun rec => rec.ID) =
      List.destutter (fun a b => a ≠ b) ((retainedRows raw).map (fun row => cell row ID)) := by
  rw [extractPharmacy_ok raw infos ps h, ← groupRows_eq_recordsOf, map_ID_groupRows]

theorem chain_sameID (r : Row) (run : List Row) (h : List.Chain (fun a b => sameID a b = true) r run) :
    ∀ row ∈ run, cell row ID = cell r ID := by
  induction run generalizing r with
  | nil => simp
  | cons x xs ih =>
    rw [List.chain_cons] at h
    have hx : cell r ID = cell x ID := by simpa [sameID] using h.1
    intro row hrow
    rcases List.mem_cons.1 hrow with rfl | hmem
    · exact hx.symm
    · rw [ih x h.2 row hmem, hx]

theorem run_sameID (rows : List Row) (run : List Row) (h : run ∈ rows.splitBy sameID) :
    run ≠ [] ∧ ∀ row ∈ run, cell row ID = cell (run.headD []) ID := by
  have hne := List.ne_nil_of_mem_splitBy sameID h
  have hch := List.chain'_of_mem_splitBy h
  cases run with
  | nil => exact absurd rfl hne
  | cons r rest =>
    refine ⟨hne, ?_⟩
    intro row hrow
    rcases List.mem_cons.1 hrow with rfl | hmem
    · rfl
    · exact chain_sameID r rest hch row hmem

theorem forall₂_map_of_forall {α β : Type} (f : α → β) (P : β → α → Prop) (l : List α)
    (h : ∀ a ∈ l, P (f a) a) : List.Forall₂ P (l.map f) l := by
  induction l with
  | nil => exact List.Forall₂.nil
  | cons a l ih =>
    exact List.Forall₂.cons (h a (List.mem_cons_self _ _))
      (ih (fun b hb => h b (List.mem_cons_of_mem _ hb)))

/-- C2: when the sheet has a header row, the records correspond one to one,
in order, to the maximal contiguous runs of equal identifiers among the
retained rows: the record IDs are the retained identifiers with consecutive
duplicates collapsed, every row of a record's run carries the record's ID,
and the fixed fields of each record are those of the first row of its run. -/
theorem extractPharmacy_runs (raw : List Row) (infos : ExcelInfo) (ps : List PharmacyInfo)
    (h : extractPharmacy raw infos = .ok ps) :
    ps.length = (idRuns raw).length ∧
    (idRuns raw).flatten = retainedRows raw ∧
    ps.map (fun rec => rec.ID) =
      List.destutter (fun a b => a ≠ b) ((retainedRows raw).map (fun row => cell row ID)) ∧
    List.Forall₂ (fun rec run => run ≠ [] ∧ ∀ row ∈ run, cell row ID = rec.ID) ps (idRuns raw) ∧
    ps.map fixedFields =
      (idRuns raw).map (fun run => fixedFields (newPharmacy infos (run.headD []))) := by
  have hrec := extractPharmacy_ok raw infos ps h
  refine ⟨?_, ?_, ?_, ?_, ?_⟩
  · rw [hrec, recordsOf, idRuns, List.length_map]
  · rw [idRuns, List.flatten_splitBy]
  · exact map_ID_extractPharmacy raw infos ps h
  · rw [hrec, recordsOf, idRuns]
    apply forall₂_map_of_forall
    intro run hrun
    exact run_sameID _ run hrun
  · rw [hrec, recordsOf, idRuns, List.map_map]
    rfl

theorem extractPharmacy_runs_witness :
    extractPharmacy sheetAABA sampleSource =
      .ok [sampleRecord "A" ["f1", "f2"], sampleRecord "B" ["f3"], sampleRecord "A" ["f4"]] ∧
    [sampleRecord "A" ["f1", "f2"], sampleRecord "B" ["f3"], sampleRecord "A" ["f4"]].length =
      (idRuns sheetAABA).length ∧
    (idRuns sheetAABA).flatten = retainedRows sheetAABA ∧
    [sampleRecord "A" ["f1", "f2"], sampleRecord "B" ["f3"], sampleRecord "A" ["f4"]].map
        (fun rec => rec.ID) =
      List.destutter (fun a b => a ≠ b)
        ((retainedRows sheetAABA).map (fun row => cell row ID)) ∧
    List.Forall₂ (fun rec run => run ≠ [] ∧ ∀ row ∈ run, cell row ID = rec.ID)
      [sampleRecord "A" ["f1", "f2"], sampleRecord "B" ["f3"], sampleRecord "A" ["f4"]]
      (idRuns sheetAABA) ∧
    [sampleRecord "A" ["f1", "f2"], sampleRecord "B" ["f3"], sampleRecord "A" ["f4"]].map
        fixedFields =
      (idRuns sheetAABA).map (fun run => fixedFields (newPharmacy sampleSource (run.headD []))) :=
  ⟨by decide, extractPharmacy_runs sheetAABA sampleSource _ (by decide)⟩

/-- C3: when the sheet has a header row, the facility sequence of every
record is the list of the non-empty facility-name cells of the rows of its
run, in row order (the first row included); so a record has at most one entry
per row of its run and no entry is the empty string. -/
theorem extractPharmacy_facility (raw : List Row) (infos : ExcelInfo) (ps : List PharmacyInfo)
    (h : extractPharmacy raw infos = .ok ps) :
    ps.map (fun rec => rec.Facility) = (idRuns raw).map facilityNames ∧
    List.Forall₂ (fun rec run => rec.Facility = facilityNames run ∧
      rec.Facility.length ≤ run.length) ps (idRuns raw) ∧
    ∀ rec ∈ ps, "" ∉ rec.Facility := by
  have hrec := extractPharmacy_ok raw infos ps h
  have hlen : ∀ run : List Row, (facilityNames run).length ≤ run.length := by
    intro run
    have := List.length_filter_le (fun f => f != "") (run.map (fun row => cell row FACIL))
    simpa [facilityNames] using this
  refine ⟨?_, ?_, ?_⟩
  · rw [hrec, recordsOf, idRuns, List.map_map]
    rfl
  · rw [hrec, recordsOf, idRuns]
    apply forall₂_map_of_forall
    intro run _
    exact ⟨rfl, hlen run⟩
  · intro rec hmem
    rw [hrec, recordsOf, List.mem_map] at hmem
    obtain ⟨run, _, rfl⟩ := hmem
    simp [recordOfRun, facilityNames]

theorem extractPharmacy_facility_witness :
    extractPharmacy sheetXYZ sampleSource = .ok [sampleRecord "A001" ["X", "Y", "Z"]] ∧
    [sampleRecord "A001" ["X", "Y", "Z"]].map (fun rec => rec.Facility) =
      (idRuns sheetXYZ).map facilityNames ∧
    List.Forall₂ (fun rec run => rec.Facility = facilityNames run ∧
      rec.Facility.length ≤ run.length) [sampleRecord "A001" ["X", "Y", "Z"]] (idRuns sheetXYZ) ∧
    ∀ rec ∈ [sampleRecord "A001" ["X", "Y", "Z"]], "" ∉ rec.Facility :=
  ⟨by decide, extractPharmacy_facility sheetXYZ sampleSource _ (by decide)⟩

theorem le_headerLoop (rows : List Row) (k : Nat) : k ≤ headerLoop rows k := by
  induction rows generalizing k with
  | nil => simp [headerLoop]
  | cons row rest ih =>
    rw [headerLoop]
    split
    · omega
    · have := ih (k + 1)
      omega

theorem headerLoop_take_append (rows : List Row) (k : Nat) (tail : List Row)
    (h : headerLoop rows k < k + rows.length) :
    headerLoop (rows.take (headerLoop rows k - k + 1) ++ tail) k = headerLoop rows k := by
  induction rows generalizing k with
  | nil => simp [headerLoop] at h
  | cons row rest ih =>
    by_cases hrow : isHeader row = true
    · simp [headerLoop, hrow]
    · have hge := le_headerLoop rest (k + 1)
      have hstep : headerLoop (row :: rest) k = headerLoop rest (k + 1) := by
        simp [headerLoop, hrow]
      rw [hstep] at h ⊢
      have hidx : headerLoop rest (k + 1) - k + 1 = (headerLoop rest (k + 1) - (k + 1) + 1) + 1 := by
        omega
      rw [hidx, List.take_succ_cons, List.cons_append, headerLoop, if_neg hrow]
      apply ih
      simp only [List.length_cons] at h
      omega

theorem normalizeRows_dropNonPharmacy (raw : List Row) :
    normalizeRows (dropNonPharmacy raw) =
      (normalizeRows raw).take (headerLoop (normalizeRows raw) 0 + 1) ++
        ((normalizeRows raw).drop (headerLoop (normalizeRows raw) 0 + 1)).filter isPharmacy := by
  simp only [normalizeRows, dropNonPharmacy, List.map_append, List.map_take]
  rw [← List.map_drop, List.filter_map]
  rfl

/-- C4: the records extracted from a sheet equal the records extracted from
the sheet with every non-pharmacy row after the header deleted (and the
outcome is the same error when there is no header); the records are a function
of the retained rows alone; and a clinic row between two pharmacy rows of one
identifier leaves a single record without the clinic row's facility name. -/
theorem extractPharmacy_dropNonPharmacy (raw : List Row) (infos : ExcelInfo) :
    extractPharmacy (dropNonPharmacy raw) infos = extractPharmacy raw infos ∧
    retainedRows (dropNonPharmacy raw) = retainedRows raw ∧
    (extractPharmacy sheetClinic sampleSource = .ok [sampleRecord "A001" ["X", "Y"]] ∧
      dropNonPharmacy sheetClinic =
        [headerRow, sampleRow "薬局" "A001" "X", sampleRow "薬局" "A001" "Y"]) := by
  have hle := headerLoop_le (normalizeRows raw) 0
  by_cases hl : headerLoop (normalizeRows raw) 0 = (normalizeRows raw).length
  · have hraw : dropNonPharmacy raw = raw := by
      have hlen : (normalizeRows raw).length = raw.length := by simp [normalizeRows]
      simp only [dropNonPharmacy, hl, hlen]
      rw [List.take_of_length_le (by omega), List.drop_eq_nil_of_le (by omega)]
      simp
    rw [hraw]
    exact ⟨rfl, rfl, by decide, by decide⟩
  · have hlt : headerLoop (normalizeRows raw) 0 < 0 + (normalizeRows raw).length := by omega
    have hnorm := normalizeRows_dropNonPharmacy raw
    have hidx : headerLoop (normalizeRows (dropNonPharmacy raw)) 0 =
        headerLoop (normalizeRows raw) 0 := by
      rw [hnorm]
      have := headerLoop_take_append (normalizeRows raw) 0
        (((normalizeRows raw).drop (headerLoop (normalizeRows raw) 0 + 1)).filter isPharmacy) hlt
      simpa using this
    have hret : retainedRows (dropNonPharmacy raw) = retainedRows raw := by
      simp only [retainedRows, dataRows, hidx]
      rw [hnorm, List.drop_append_of_le_length (by rw [List.length_take]; omega),
        List.drop_eq_nil_of_le (by rw [List.length_take]; omega), List.nil_append,
        List.filter_filter]
      simp
    refine ⟨?_, hret, by decide, by decide⟩
    rw [extractPharmacy_eq, extractPharmacy_eq, hidx, hret, if_neg hl, if_neg]
    rw [hnorm, List.length_append, List.length_take]
    omega

theorem mem_destutter'_ne (l : List String) (a x : String) :
    x ∈ List.destutter' (fun p q => p ≠ q) a l ↔ x ∈ a :: l := by
  induction l generalizing a with
  | nil => simp
  | cons b rest ih =>
    by_cases hab : a = b
    · subst hab
      rw [List.destutter'_cons_neg _ (by simp), ih]
      simp
    · rw [List.destutter'_cons_pos _ hab, List.mem_cons, ih, List.mem_cons (a := x) (b := a)]

theorem contiguous_cons_ne (a b : String) (rest : List String) (hab : a ≠ b) :
    Contiguous (a :: b :: rest) ↔ a ∉ b :: rest ∧ Contiguous (b :: rest) := by
  constructor
  · intro hc
    constructor
    · intro hmem
      rcases List.mem_cons.1 hmem with h | h
      · exact hab h
      · obtain ⟨m, hm⟩ := List.get?_of_mem h
        have := hc 0 1 (m + 2) a (by omega) (by omega) rfl (by simpa using hm)
        simp only [List.get?_cons_succ, List.get?_cons_zero, Option.some.injEq] at this
        exact hab this.symm
    · intro i j k x hij hjk hi hk
      have := hc (i + 1) (j + 1) (k + 1) x (by omega) (by omega) (by simpa using hi)
        (by simpa using hk)
      simpa using this
  · rintro ⟨hnot, hc⟩ i j k x hij hjk hi hk
    cases i with
    | zero =>
      exfalso
      simp only [List.get?_cons_zero, Option.some.injEq] at hi
      subst hi
      obtain ⟨k', rfl⟩ : ∃ k', k = k' + 1 := ⟨k - 1, by omega⟩
      rw [List.get?_cons_succ] at hk
      exact hnot (List.get?_mem hk)
    | succ i =>
      obtain ⟨j', rfl⟩ : ∃ j', j = j' + 1 := ⟨j - 1, by omega⟩
      obtain ⟨k', rfl⟩ : ∃ k', k = k' + 1 := ⟨k - 1, by omega⟩
      rw [List.get?_cons_succ] at hi hk ⊢
      exact hc i j' k' x (by omega) (by omega) hi hk

theorem contiguous_cons_self (a : String) (rest : List String) :
    Contiguous (a :: a :: rest) ↔ Contiguous (a :: rest) := by
  constructor
  · intro hc i j k x hij hjk hi hk
    have := hc (i + 1) (j + 1) (k + 1) x (by omega) (by omega) (by simpa using hi)
      (by simpa using hk)
    simpa using this
  · intro hc i j k x hij hjk hi hk
    obtain ⟨j', rfl⟩ : ∃ j', j = j' + 1 := ⟨j - 1, by omega⟩
    obtain ⟨k', rfl⟩ : ∃ k', k = k' + 1 := ⟨k - 1, by omega⟩
    rw [List.get?_cons_succ] at hk ⊢
    cases i with
    | zero =>
      simp only [List.get?_cons_zero, Option.some.injEq] at hi
      subst hi
      cases j' with
      | zero => rfl
      | succ j'' => exact hc 0 (j'' + 1) k' a (by omega) (by omega) rfl hk
    | succ i =>
      rw [List.get?_cons_succ] at hi
      exact hc i j' k' x (by omega) (by omega) hi hk

theorem nodup_destutter'_iff (l : List String) (a : String) :
    (List.destutter' (fun p q => p ≠ q) a l).Nodup ↔ Contiguous (a :: l) := by
  induction l generalizing a with
  | nil =>
    simp only [List.destutter'_nil, List.nodup_cons, List.not_mem_nil, not_false_eq_true,
      List.nodup_nil, and_self, true_iff]
    intro i j k x hij hjk _ hk
    obtain ⟨k', rfl⟩ : ∃ k', k = k' + 1 := ⟨k - 1, by omega⟩
    simp at hk
  | cons b rest ih =>
    by_cases hab : a = b
    · subst hab
      rw [List.destutter'_cons_neg _ (by simp), ih, contiguous_cons_self]
    · rw [List.destutter'_cons_pos _ hab, List.nodup_cons, mem_destutter'_ne, ih,
        contiguous_cons_ne a b rest hab]

theorem nodup_destutter_iff (l : List String) :
    (List.destutter (fun p q => p ≠ q) l).Nodup ↔ Contiguous l := by
  cases l with
  | nil =>
    simp only [List.destutter_nil, List.nodup_nil, true_iff]
    intro i j k x _ _ hi
    simp at hi
  | cons a rest => exact nodup_destutter'_iff rest a

/-- C10 (as amended): when the sheet has a header row, the IDs of the records
are pairwise distinct if and only if no identifier reoccurs non-contiguously
among the retained rows (between two retained rows with the same identifier
every retained row has that identifier); in every case two consecutive records
have different IDs. -/
theorem extractPharmacy_ids_nodup_iff (raw : List Row) (infos : ExcelInfo)
    (ps : List PharmacyInfo) (h : extractPharmacy raw infos = .ok ps) :
    ((ps.map (fun rec => rec.ID)).Nodup ↔
      Contiguous ((retainedRows raw).map (fun row => cell row ID))) ∧
    List.Chain' (fun a b => a ≠ b) (ps.map (fun rec => rec.ID)) := by
  rw [map_ID_extractPharmacy raw infos ps h]
  exact ⟨nodup_destutter_iff _, List.destutter_is_chain' _ _⟩

theorem extractPharmacy_ids_nodup_iff_witness :
    extractPharmacy sheetAAB sampleSource =
      .ok [sampleRecord "A" ["f1", "f2"], sampleRecord "B" ["f3"]] ∧
    ([sampleRecord "A" ["f1", "f2"], sampleRecord "B" ["f3"]].map (fun rec => rec.ID)).Nodup ∧
    Contiguous ((retainedRows sheetAAB).map (fun row => cell row ID)) ∧
    ¬ Contiguous ((retainedRows sheetAABA).map (fun row => cell row ID)) ∧
    List.Chain' (fun a b => a ≠ b)
      ([sampleRecord "A" ["f1", "f2"], sampleRecord "B" ["f3"]].map (fun rec => rec.ID)) :=
  have hAAB := extractPharmacy_ids_nodup_iff sheetAAB sampleSource
    [sampleRecord "A" ["f1", "f2"], sampleRecord "B" ["f3"]] (by decide)
  have hAABA := extractPharmacy_ids_nodup_iff sheetAABA sampleSource
    [sampleRecord "A" ["f1", "f2"], sampleRecord "B" ["f3"], sampleRecord "A" ["f4"]]
    (by decide)
  ⟨by decide, by decide, hAAB.1.1 (by decide), fun hc => absurd (hAABA.1.2 hc) (by decide),
    hAAB.2⟩

/-- Counterexample to C10 as stated: identifiers A, A, B, A give three
records, the first and the last with the same ID. -/
theorem extractPharmacy_ids_not_distinct :
    extractPharmacy sheetAABA sampleSource =
      .ok [sampleRecord "A" ["f1", "f2"], sampleRecord "B" ["f3"], sampleRecord "A" ["f4"]] ∧
    ¬ ([sampleRecord "A" ["f1", "f2"], sampleRecord "B" ["f3"], sampleRecord "A" ["f4"]].map
        (fun rec => rec.ID)).Nodup := by
  decide

theorem headerLoop_spec_witness :
    (normalizeRows sheetHeader5).get? 5 = some (normalizeRow headerRow) ∧
    cell (normalizeRow headerRow) ID = "医療機関番号" ∧
    (∀ j r, j < 5 → (normalizeRows sheetHeader5).get? j = some r → cell r ID ≠ "医療機関番号") ∧
    headerLoop (normalizeRows sheetHeader5) 0 = 5 ∧
    extractPharmacy sheetHeader5 sampleSource =
      .ok (extractLoop sampleSource ((normalizeRows sheetHeader5).drop (5 + 1))
        { ps := [], p := none }).ps :=
  have hbefore : ∀ j r, j < 5 → (normalizeRows sheetHeader5).get? j = some r →
      cell r ID ≠ "医療機関番号" := by
    intro j r hj hr
    have h5 : ∀ k, k < 5 → ∀ r', (normalizeRows sheetHeader5).get? k = some r' →
        cell r' ID ≠ "医療機関番号" := by decide
    exact h5 j hj r hr
  ⟨by decide, by decide, hbefore,
    (headerLoop_spec sheetHeader5 sampleSource).2.2.2 5 (normalizeRow headerRow)
      (by decide) (by decide) hbefore⟩

/-! ## Reward points -/

theorem wrapInt_isInt (x : Int) : isInt (wrapInt x) := by
  unfold isInt wrapInt
  have h1 : (0 : Int) ≤ (x + 2 ^ (intBits - 1)) % 2 ^ intBits :=
    Int.emod_nonneg _ (by simp [intBits])
  have h2 : (x + 2 ^ (intBits - 1)) % 2 ^ intBits < 2 ^ intBits :=
    Int.emod_lt_of_pos _ (by simp [intBits])
  simp only [intBits] at h1 h2 ⊢
  omega

theorem wrapInt_of_isInt (x : Int) (h : isInt x) : wrapInt x = x := by
  unfold isInt at h
  unfold wrapInt
  simp only [intBits] at h ⊢
  omega

theorem wrapInt_emod (x : Int) : wrapInt x % 2 ^ intBits = x % 2 ^ intBits := by
  unfold wrapInt
  simp only [intBits]
  omega

theorem wrapInt_add_left (x y : Int) : wrapInt (wrapInt x + y) = wrapInt (x + y) := by
  unfold wrapInt
  simp only [intBits]
  omega

theorem addPoints_eq (reward : List (String × Int)) (facility : List String) (point : Int) :
    addPoints reward facility point =
      if facility.all (fun f => (reward.lookup f).isNone) then point
      else wrapInt (point + pointsOf reward facility) := by
  induction facility generalizing point with
  | nil => simp [addPoints]
  | cons f rest ih =>
    rw [addPoints]
    cases hf : reward.lookup f with
    | none =>
      simp only [List.all_cons, hf, Option.isNone_none, Bool.true_and]
      rw [ih]
      simp [pointsOf, hf]
    | some p =>
      simp only [List.all_cons, hf, Option.isNone_some, Bool.false_and, Bool.false_eq_true,
        if_false]
      rw [ih]
      have hsum : pointsOf reward (f :: rest) = p + pointsOf reward rest := by
        simp [pointsOf, hf]
      split
      · rename_i hall
        have hzero : pointsOf reward rest = 0 := by
          simp only [pointsOf]
          apply List.sum_eq_zero
          intro x hx
          simp only [List.mem_map] at hx
          obtain ⟨g, hg, rfl⟩ := hx
          have := List.all_eq_true.1 hall g hg
          simp only [Option.isNone_iff_eq_none] at this
          simp [this]
        rw [hsum, hzero, add_zero]
      · rw [wrapInt_add_left, hsum, add_assoc]

theorem pointsOf_eq_zero_of_all (reward : List (String × Int)) (facility : List String)
    (hall : facility.all (fun f => (reward.lookup f).isNone) = true) :
    pointsOf reward facility = 0 := by
  simp only [pointsOf]
  apply List.sum_eq_zero
  intro x hx
  simp only [List.mem_map] at hx
  obtain ⟨g, hg, rfl⟩ := hx
  have := List.all_eq_true.1 hall g hg
  simp only [Option.isNone_iff_eq_none] at this
  simp [this]

/-- C5: for every record whose point total is a Go `int` and every reward
table selected for it, the reward step leaves every other field unchanged and
sets the point total to the previous total plus the sum, over every
occurrence in the facility sequence, of the table's value for that name (0
for a name that is not a key), the addition being that of Go's `int`; the
new total is that sum exactly whenever the sum fits the type. -/
theorem rewardStep_point (rinfo : RewardInfo) (info : PharmacyInfo) (hpoint : isInt info.Point) :
    (rewardStep rinfo info).Point =
      wrapInt (info.Point + pointsOf rinfo.Reward info.Facility) ∧
    (isInt (info.Point + pointsOf rinfo.Reward info.Facility) →
      (rewardStep rinfo info).Point = info.Point + pointsOf rinfo.Reward info.Facility) ∧
    rewardStep rinfo info = { info with Point := (rewardStep rinfo info).Point } := by
  have hmain : (rewardStep rinfo info).Point =
      wrapInt (info.Point + pointsOf rinfo.Reward info.Facility) := by
    simp only [rewardStep]
    rw [addPoints_eq]
    split
    · rename_i hall
      rw [pointsOf_eq_zero_of_all _ _ hall, add_zero, wrapInt_of_isInt _ hpoint]
    · rfl
  refine ⟨hmain, ?_, rfl⟩
  intro hfit
  rw [hmain, wrapInt_of_isInt _ hfit]

theorem rewardStep_point_witness :
    isInt recordAuth.Point ∧
    (rewardStep tableK1 recordAuth).Point = 20 ∧
    pointsOf tableK1.Reward recordAuth.Facility = 20 ∧
    ((rewardStep tableK1 recordAuth).Point =
        wrapInt (recordAuth.Point + pointsOf tableK1.Reward recordAuth.Facility) ∧
      (isInt (recordAuth.Point + pointsOf tableK1.Reward recordAuth.Facility) →
        (rewardStep tableK1 recordAuth).Point =
          recordAuth.Point + pointsOf tableK1.Reward recordAuth.Facility) ∧
      rewardStep tableK1 recordAuth =
        { recordAuth with Point := (rewardStep tableK1 recordAuth).Point }) :=
  ⟨by decide, by decide, by decide, rewardStep_point tableK1 recordAuth (by decide)⟩

/-! ## The retry loop -/

theorem head_decodeInto (geo : Geocoder) (addr : String) (st : RetryState)
    (cs : List Candidate)
    (hinv : ∀ c l, resultCandidates st.result = c :: l →
      ∃ m l', (geo m addr).decoded = c :: l')
    (hdec : (geo st.requests.length addr).decoded = cs) :
    ∀ c l, resultCandidates (decodeInto st.result cs) = c :: l →
      ∃ m l', (geo m addr).decoded = c :: l' := by
  intro c l hcl
  simp only [decodeInto, resultCandidates] at hcl hinv
  cases hold : resultCandidates st.result with
  | nil =>
    simp only [resultCandidates] at hold
    rw [hold, List.nil_append] at hcl
    exact ⟨st.requests.length, l, by rw [hdec, hcl]⟩
  | cons c0 l0 =>
    simp only [resultCandidates] at hold
    rw [hold, List.cons_append] at hcl
    obtain ⟨m, l', hm⟩ := hinv c0 l0 hold
    cases hcl
    exact ⟨m, l', hm⟩

theorem retryLoop_cases (geo : Geocoder) (addr : String) (left : Nat) (st : RetryState)
    (hinv : ∀ c l, resultCandidates st.result = c :: l →
      ∃ m l', (geo m addr).decoded = c :: l')
    (hstart : (∃ e, st.err = some e) ∨ 0 < left) :
    ∃ n, n ≤ left ∧ (0 < left → 0 < n) ∧
      (retryLoop geo addr left st).requests = st.requests ++ List.replicate n addr ∧
      ((∃ e, (retryLoop geo addr left st).err = some e) ∨
        ((retryLoop geo addr left st).err = none ∧
          ∃ c l m l', (retryLoop geo addr left st).result = some ⟨c :: l⟩ ∧
            (geo m addr).decoded = c :: l')) := by
  induction left generalizing st with
  | zero =>
    rcases hstart with he | hlt
    · exact ⟨0, le_refl _, fun h => absurd h (lt_irrefl _), by simp [retryLoop],
        Or.inl (by simpa [retryLoop] using he)⟩
    · omega
  | succ left ih =>
    have hrest : ∀ (st1 : RetryState), st1.requests = st.requests ++ [addr] →
        (∃ e, st1.err = some e) →
        (∀ c l, resultCandidates st1.result = c :: l →
          ∃ m l', (geo m addr).decoded = c :: l') →
        ∃ n, n ≤ left + 1 ∧ (0 < left + 1 → 0 < n) ∧
          (retryLoop geo addr left st1).requests = st.requests ++ List.replicate n addr ∧
          ((∃ e, (retryLoop geo addr left st1).err = some e) ∨
            ((retryLoop geo addr left st1).err = none ∧
              ∃ c l m l', (retryLoop geo addr left st1).result = some ⟨c :: l⟩ ∧
                (geo m addr).decoded = c :: l')) := by
      intro st1 hreq herr hinv1
      obtain ⟨n, hn, _, hr, hout⟩ := ih st1 hinv1 (Or.inl herr)
      refine ⟨n + 1, by omega, fun _ => by omega, ?_, hout⟩
      rw [hr, hreq, List.append_assoc, List.replicate_succ]
      rfl
    rw [retryLoop]
    cases hg : geo st.requests.length addr with
    | transportFailure =>
      simp only []
      exact hrest _ rfl ⟨_, rfl⟩ hinv
    | decodeFailure d =>
      cases d with
      | none =>
        simp only []
        exact hrest _ rfl ⟨_, rfl⟩ hinv
      | some cs =>
        simp only []
        exact hrest _ rfl ⟨_, rfl⟩
          (head_decodeInto geo addr st cs hinv (by rw [hg]; rfl))
    | response cs =>
      simp only []
      have hhead := head_decodeInto geo addr st cs hinv (by rw [hg]; rfl)
      by_cases hlen : (resultCandidates (decodeInto st.result cs)).length = 0
      · simp only [hlen, beq_self_eq_true, if_true]
        exact hrest _ rfl ⟨_, rfl⟩ hhead
      · have hb : ((resultCandidates (decodeInto st.result cs)).length == 0) = false := by
          simpa using hlen
        simp only [hb, Bool.false_eq_true, if_false]
        refine ⟨1, by omega, fun _ => by omega, rfl, Or.inr ⟨trivial, ?_⟩⟩
        cases hc : resultCandidates (decodeInto st.result cs) with
        | nil => simp [hc] at hlen
        | cons c l =>
          obtain ⟨m, l', hm⟩ := hhead c l hc
          refine ⟨c, l, m, l', ?_, hm⟩
          simp only [decodeInto, resultCandidates] at hc ⊢
          rw [hc]

theorem retryLoop_exhaust (geo : Geocoder) (addr : String) (left : Nat) (st : RetryState)
    (hres : resultCandidates st.result = [])
    (h : ∀ i, i < left → (geo (st.requests.length + i) addr).decoded = []) :
    (retryLoop geo addr left st).requests = st.requests ++ List.replicate left addr ∧
    (retryLoop geo addr left st).err =
      if left = 0 then st.err else some (geo (st.requests.length + left - 1) addr).error := by
  induction left generalizing st with
  | zero => simp [retryLoop]
  | succ left ih =>
    have h0 := h 0 (by omega)
    rw [Nat.add_zero] at h0
    have hrest : ∀ (st1 : RetryState), st1.requests = st.requests ++ [addr] →
        st1.err = some (geo st.requests.length addr).error →
        resultCandidates st1.result = [] →
        (retryLoop geo addr left st1).requests =
          st.requests ++ List.replicate (left + 1) addr ∧
        (retryLoop geo addr left st1).err =
          some (geo (st.requests.length + (left + 1) - 1) addr).error := by
      intro st1 hreq herr hres1
      have hlen : st1.requests.length = st.requests.length + 1 := by simp [hreq]
      have := ih st1 hres1 (fun i hi => by
        rw [hlen]
        have := h (i + 1) (by omega)
        rwa [show st.requests.length + 1 + i = st.requests.length + (i + 1) by omega])
      refine ⟨?_, ?_⟩
      · rw [this.1, hreq, List.append_assoc, List.replicate_succ]
        rfl
      · rw [this.2, hlen]
        by_cases hl : left = 0
        · subst hl
          simp [herr]
        · rw [if_neg hl]
          rw [show st.requests.length + 1 + left - 1 = st.requests.length + (left + 1) - 1 by omega]
    have hempty : resultCandidates (decodeInto st.result []) = [] := by
      simp only [decodeInto, resultCandidates] at hres ⊢
      rw [hres]
      rfl
    rw [if_neg (by omega), retryLoop]
    cases hg : geo st.requests.length addr with
    | transportFailure =>
      simp only []
      exact hrest _ rfl (by simp [hg, Attempt.error]) hres
    | decodeFailure d =>
      cases d with
      | none =>
        simp only []
        exact hrest _ rfl (by simp [hg, Attempt.error]) hres
      | some cs =>
        have hcs : cs = [] := by simpa [hg, Attempt.decoded] using h0
        subst hcs
        simp only []
        exact hrest _ rfl (by simp [hg, Attempt.error]) hempty
    | response cs =>
      have hcs : cs = [] := by simpa [hg, Attempt.decoded] using h0
      subst hcs
      simp only [hempty, List.length_nil, beq_self_eq_true, if_true]
      exact hrest _ rfl (by simp [hg, Attempt.error]) hempty

theorem retryLoop_success (geo : Geocoder) (addr : String) (left : Nat) (st : RetryState)
    (k : Nat) (c : Candidate) (cs : List Candidate) (hk : k < left)
    (hres : resultCandidates st.result = [])
    (h : ∀ i, i < k → (geo (st.requests.length + i) addr).decoded = [])
    (hresp : geo (st.requests.length + k) addr = .response (c :: cs)) :
    retryLoop geo addr left st =
      { requests := st.requests ++ List.replicate (k + 1) addr, err := none,
        result := some ⟨c :: cs⟩ } := by
  induction left generalizing st k with
  | zero => omega
  | succ left ih =>
    have hempty : resultCandidates (decodeInto st.result []) = [] := by
      simp only [decodeInto, resultCandidates] at hres ⊢
      rw [hres]
      rfl
    cases k with
    | zero =>
      rw [Nat.add_zero] at hresp
      have hinto : decodeInto st.result (c :: cs) = some ⟨c :: cs⟩ := by
        simp only [decodeInto, resultCandidates] at hres ⊢
        rw [hres]
        rfl
      rw [retryLoop, hresp]
      simp [hinto, resultCandidates]
    | succ k =>
      have h0 := h 0 (by omega)
      rw [Nat.add_zero] at h0
      have hrest : ∀ (st1 : RetryState), st1.requests = st.requests ++ [addr] →
          resultCandidates st1.result = [] →
          retryLoop geo addr left st1 =
            { requests := st.requests ++ List.replicate (k + 1 + 1) addr, err := none,
              result := some ⟨c :: cs⟩ } := by
        intro st1 hreq hres1
        have hlen : st1.requests.length = st.requests.length + 1 := by simp [hreq]
        rw [ih st1 k (by omega) hres1
          (fun i hi => by
            rw [hlen]
            have := h (i + 1) (by omega)
            rwa [show st.requests.length + 1 + i = st.requests.length + (i + 1) by omega])
          (by
            rw [hlen, show st.requests.length + 1 + k = st.requests.length + (k + 1) by omega]
            exact hresp)]
        rw [hreq, List.append_assoc, List.replicate_succ (n := k + 1)]
        rfl
      rw [retryLoop]
      cases hg : geo st.requests.length addr with
      | transportFailure =>
        simp only []
        exact hrest _ rfl hres
      | decodeFailure d =>
        cases d with
        | none =>
          simp only []
          exact hrest _ rfl hres
        | some cs' =>
          have hcs : cs' = [] := by simpa [hg, Attempt.decoded] using h0
          subst hcs
          simp only []
          exact hrest _ rfl hempty
      | response cs' =>
        have hcs : cs' = [] := by simpa [hg, Attempt.decoded] using h0
        subst hcs
        simp only [hempty, List.length_nil, beq_self_eq_true, if_true]
        exact hrest _ rfl hempty

theorem findReward_mem (key : String) (tables : List RewardInfo) (init : Option RewardInfo)
    (t : RewardInfo) (h : findReward key tables init = some t) :
    t ∈ tables ∨ init = some t := by
  induction tables generalizing init with
  | nil => exact Or.inr h
  | cons x rest ih =>
    rw [findReward] at h
    split at h
    · left
      cases h
      exact List.mem_cons_self _ _
    · rcases ih (some x) h with hmem | heq
      · exact Or.inl (List.mem_cons_of_mem _ hmem)
      · cases heq
        exact Or.inl (List.mem_cons_self _ _)

/-- The retry loop on attempts whose failures leave no candidate in `result`:
if attempt `k` (1 ≤ k ≤ 10) is the first to decode a candidate and is a whole
document, exactly `k` requests are issued, `err` ends nil and the record
receives the first candidate of that document; if no attempt among the first
10 decodes a candidate, exactly 10 requests are issued, the geocode error
wrapping the last attempt's error is returned and the record is unchanged. -/
theorem enrichRecord_retry_clean (geo : Geocoder) (tables : List RewardInfo)
    (requests : List String) (err : Option Error) (info : PharmacyInfo) :
    (∀ (k : Nat) (c : Candidate) (cs : List Candidate), 1 ≤ k → k ≤ RETRY →
      (∀ i, i + 1 < k → (geo (requests.length + i) info.Address).decoded = []) →
      geo (requests.length + (k - 1)) info.Address = .response (c :: cs) →
      (enrichRecord geo tables requests err info).requests =
        requests ++ List.replicate k info.Address ∧
      (enrichRecord geo tables requests err info).err = none ∧
      (enrichRecord geo tables requests err info).info.Lat = c.Latitude ∧
      (enrichRecord geo tables requests err info).info.Lon = c.Longitude ∧
      ((enrichRecord geo tables requests err info).exit = none ∨
        (enrichRecord geo tables requests err info).exit =
          some (.fail (.new "failed to find reward info")))) ∧
    ((∀ i, i < RETRY → (geo (requests.length + i) info.Address).decoded = []) →
      (enrichRecord geo tables requests err info).requests =
        requests ++ List.replicate 10 info.Address ∧
      (enrichRecord geo tables requests err info).exit =
        some (.fail (.wrap (geo (requests.length + 9) info.Address).error
          "failed to get address search")) ∧
      (enrichRecord geo tables requests err info).info = info) := by
  constructor
  · intro k c cs hk1 hk2 hbefore hresp
    obtain ⟨k', rfl⟩ : ∃ k', k = k' + 1 := ⟨k - 1, by omega⟩
    rw [Nat.add_sub_cancel] at hresp
    have hloop := retryLoop_success geo info.Address RETRY
      { requests := requests, err := err, result := none } k' c cs (by omega) rfl
      (fun i hi => hbefore i (by omega)) hresp
    simp only [enrichRecord, hloop]
    cases findReward info.RewardID tables none with
    | none => simp
    | some rinfo => simp [rewardStep]
  · intro hall
    have hloop := retryLoop_exhaust geo info.Address RETRY
      { requests := requests, err := err, result := none } rfl hall
    have hne : ¬ RETRY = 0 := by decide
    rw [if_neg hne] at hloop
    simp only [enrichRecord]
    rw [hloop.2]
    simp only [hloop.1]
    refine ⟨?_, ?_, ?_⟩ <;> first | rfl | trivial

theorem enrichRecord_retry_clean_example :
    enrichRecord geoFourth [tableK1] [] (some .decode) recordAuth =
      { info := { recordAuth with
          Point := 20, Lon := ⟨0x4061600000000000⟩, Lat := ⟨0x4041800000000000⟩ },
        requests := List.replicate 4 recordAuth.Address, err := none, exit := none } ∧
    enrichRecord geoEmpty [tableK1] [] none recordAuth =
      { info := recordAuth, requests := List.replicate 10 recordAuth.Address,
        err := some (.new "invalid coordinate"),
        exit := some (.fail (.wrap (.new "invalid coordinate")
          "failed to get address search")) } := by
  decide

/-- C6 fails on the code. The first body is cut after one complete candidate
(the decoder fails, the candidate stays in `result`), the second document has
no candidate, the third is the first usable response. The loop stops after 2
requests, not 3, with `err` nil, and the record receives the candidate of the
failed first attempt, not the first candidate of the third response. When no
usable response ever comes, the loop still stops after 2 requests without
the geocode error. -/
theorem enrichRecord_stale_candidate :
    (geoTruncated 0 recordAuth.Address = .decodeFailure (some [osaka]) ∧
      geoTruncated 1 recordAuth.Address = .response [] ∧
      geoTruncated 2 recordAuth.Address = .response [tokyo]) ∧
    enrichRecord geoTruncated [tableK1] [] none recordAuth =
      { info := { recordAuth with
          Point := 20, Lon := osaka.Longitude, Lat := osaka.Latitude },
        requests := List.replicate 2 recordAuth.Address, err := none, exit := none } ∧
    (∀ i, i < RETRY →
      ∀ c cs, geoTruncatedThenEmpty i recordAuth.Address ≠ .response (c :: cs)) ∧
    enrichRecord geoTruncatedThenEmpty [tableK1] [] none recordAuth =
      { info := { recordAuth with
          Point := 20, Lon := osaka.Longitude, Lat := osaka.Latitude },
        requests := List.replicate 2 recordAuth.Address, err := none, exit := none } := by
  refine ⟨by decide, by decide, ?_, by decide⟩
  intro i _ c cs
  unfold geoTruncatedThenEmpty
  split <;> simp

/-! ## The record loop of the enrichment -/

theorem enrichRecord_cases (geo : Geocoder) (tables : List RewardInfo) (requests : List String)
    (err : Option Error) (info : PharmacyInfo) :
    ∃ n, 1 ≤ n ∧ n ≤ RETRY ∧
      (enrichRecord geo tables requests err info).requests =
        requests ++ List.replicate n info.Address ∧
      (((enrichRecord geo tables requests err info).exit = none ∧
          (enrichRecord geo tables requests err info).err = none ∧
          Enriched geo tables info (enrichRecord geo tables requests err info).info) ∨
        (∃ inner, (enrichRecord geo tables requests err info).exit =
            some (.fail (.wrap inner "failed to get address search")) ∧
          (enrichRecord geo tables requests err info).info = info) ∨
        (∃ c : Candidate, (enrichRecord geo tables requests err info).exit =
            some (.fail (.new "failed to find reward info")) ∧
          (enrichRecord geo tables requests err info).info =
            { info with Lon := c.Longitude, Lat := c.Latitude })) := by
  obtain ⟨n, hn, hpos, hreq, hout⟩ := retryLoop_cases geo info.Address RETRY
    { requests := requests, err := err, result := none }
    (by intro c l h; simp [resultCandidates] at h) (Or.inr (by decide))
  refine ⟨n, hpos (by decide), hn, ?_, ?_⟩
  · simp only [enrichRecord]
    rcases hout with ⟨e, he⟩ | ⟨herr, c, l, m, l', hres, _⟩
    · simp only [he]
      exact hreq
    · simp only [herr, hres]
      cases findReward info.RewardID tables none <;> exact hreq
  · rcases hout with ⟨e, he⟩ | ⟨herr, c, l, m, l', hres, hdec⟩
    · refine Or.inr (Or.inl ⟨e, ?_, ?_⟩) <;> simp only [enrichRecord, he]
    · cases hf : findReward info.RewardID tables none with
      | none =>
        refine Or.inr (Or.inr ⟨c, ?_, ?_⟩) <;> simp only [enrichRecord, herr, hres, hf]
      | some rinfo =>
        left
        refine ⟨?_, ?_, m, c, l', rinfo, hdec, ?_, ?_⟩
        · simp only [enrichRecord, herr, hres, hf]
        · simp only [enrichRecord, herr, hres, hf]
        · rcases findReward_mem _ _ _ _ hf with hmem | hnone
          · exact hmem
          · cases hnone
        · simp only [enrichRecord, herr, hres, hf]

theorem enrichLoop_spec (geo : Geocoder) (tables : List RewardInfo) (infos : List PharmacyInfo)
    (requests : List String) (err : Option Error) :
    ∃ (k : Nat) (counts : List Nat), k ≤ infos.length ∧
      (enrichLoop geo tables infos requests err).1.length = infos.length ∧
      List.Forall₂ (Enriched geo tables) (infos.take k)
        ((enrichLoop geo tables infos requests err).1.take k) ∧
      (enrichLoop geo tables infos requests err).1.drop (k + 1) = infos.drop (k + 1) ∧
      counts.length = min (k + 1) infos.length ∧
      (∀ n ∈ counts, 1 ≤ n ∧ n ≤ RETRY) ∧
      (enrichLoop geo tables infos requests err).2.1 =
        requests ++ requestBlocks counts infos ∧
      (k = infos.length → (enrichLoop geo tables infos requests err).2.2 = .ok) ∧
      (k < infos.length → ∃ (e : Error) (info : PharmacyInfo),
        infos.get? k = some info ∧
        (enrichLoop geo tables infos requests err).2.2 = .fail e ∧
        ((∃ inner, e = .wrap inner "failed to get address search" ∧
            (enrichLoop geo tables infos requests err).1.get? k = some info) ∨
          (∃ c : Candidate, e = .new "failed to find reward info" ∧
            (enrichLoop geo tables infos requests err).1.get? k =
              some { info with Lon := c.Longitude, Lat := c.Latitude }))) := by
  induction infos generalizing requests err with
  | nil =>
    refine ⟨0, [], le_refl _, rfl, List.Forall₂.nil, rfl, rfl, ?_, ?_, fun _ => rfl, ?_⟩
    · intro n hn
      simp at hn
    · simp [enrichLoop, requestBlocks]
    · intro h
      simp at h
  | cons info rest ih =>
    obtain ⟨n, hn1, hn2, hreq, hcases⟩ := enrichRecord_cases geo tables requests err info
    rcases hcases with ⟨hexit, herr, henr⟩ | hfail | hfail
    · obtain ⟨k, counts, hk, hlen, hpre, hpost, hcl, hcr, hreqs, hok, hbad⟩ :=
        ih (enrichRecord geo tables requests err info).requests
          (enrichRecord geo tables requests err info).err
      have hloop : enrichLoop geo tables (info :: rest) requests err =
          ((enrichRecord geo tables requests err info).info ::
              (enrichLoop geo tables rest (enrichRecord geo tables requests err info).requests
                (enrichRecord geo tables requests err info).err).1,
            (enrichLoop geo tables rest (enrichRecord geo tables requests err info).requests
                (enrichRecord geo tables requests err info).err).2.1,
            (enrichLoop geo tables rest (enrichRecord geo tables requests err info).requests
                (enrichRecord geo tables requests err info).err).2.2) := by
        rw [enrichLoop]
        simp only [hexit]
      rw [hloop]
      refine ⟨k + 1, n :: counts, by simp only [List.length_cons]; omega, by simp [hlen],
        ?_, ?_, ?_, ?_, ?_, ?_, ?_⟩
      · simp only [List.take_succ_cons]
        exact List.Forall₂.cons henr hpre
      · simpa using hpost
      · simp only [List.length_cons, hcl]
        omega
      · intro m hm
        rcases List.mem_cons.1 hm with rfl | hm
        · exact ⟨hn1, hn2⟩
        · exact hcr m hm
      · show (enrichLoop geo tables rest (enrichRecord geo tables requests err info).requests
            (enrichRecord geo tables requests err info).err).2.1 = _
        rw [hreqs, hreq]
        simp only [requestBlocks, List.zipWith_cons_cons, List.flatten_cons, List.append_assoc]
      · intro hkl
        exact hok (by simpa using hkl)
      · intro hkl
        obtain ⟨e, info', hget, hexit', hshape⟩ := hbad (by simpa using hkl)
        exact ⟨e, info', by simpa using hget, hexit', by simpa using hshape⟩
    · obtain ⟨inner, hexit, hinfo⟩ := hfail
      have hloop : enrichLoop geo tables (info :: rest) requests err =
          (info :: rest, requests ++ List.replicate n info.Address,
            .fail (.wrap inner "failed to get address search")) := by
        rw [enrichLoop]
        simp only [hexit, hinfo, hreq]
      rw [hloop]
      refine ⟨0, [n], Nat.zero_le _, rfl, List.Forall₂.nil, rfl, by simp, ?_, ?_, ?_, ?_⟩
      · intro m hm
        rw [List.mem_singleton] at hm
        subst hm
        exact ⟨hn1, hn2⟩
      · simp [requestBlocks]
      · intro h
        simp at h
      · intro _
        exact ⟨_, info, rfl, rfl, Or.inl ⟨inner, rfl, rfl⟩⟩
    · obtain ⟨c, hexit, hinfo⟩ := hfail
      have hloop : enrichLoop geo tables (info :: rest) requests err =
          ({ info with Lon := c.Longitude, Lat := c.Latitude } :: rest,
            requests ++ List.replicate n info.Address,
            .fail (.new "failed to find reward info")) := by
        rw [enrichLoop]
        simp only [hexit, hinfo, hreq]
      rw [hloop]
      refine ⟨0, [n], Nat.zero_le _, rfl, List.Forall₂.nil, rfl, by simp, ?_, ?_, ?_, ?_⟩
      · intro m hm
        rw [List.mem_singleton] at hm
        subst hm
        exact ⟨hn1, hn2⟩
      · simp [requestBlocks]
      · intro h
        simp at h
      · intro _
        exact ⟨_, info, rfl, rfl, Or.inr ⟨c, rfl, rfl⟩⟩

/-- C7: every run of `retrieveAdditionalInfo` has a first index `k` at which
a step fails, or `k` is the number of records. The output has the records in
the input order; the records before `k` are enriched; the records after `k`
are unchanged; the requests issued are one block of 1 to 10 requests per record
up to `k`, in record order, and none for a later record. If `k` is the number
of records the function returns no error; otherwise it returns the geocode
error with record `k` unchanged, or the reward error with record `k` holding
its coordinates only. -/
theorem retrieveAdditionalInfo_failFast (geo : Geocoder) (tables : List RewardInfo)
    (infos : List PharmacyInfo) :
    ∃ (k : Nat) (counts : List Nat), k ≤ infos.length ∧
      (retrieveAdditionalInfo geo tables infos).1.length = infos.length ∧
      List.Forall₂ (Enriched geo tables) (infos.take k)
        ((retrieveAdditionalInfo geo tables infos).1.take k) ∧
      (retrieveAdditionalInfo geo tables infos).1.drop (k + 1) = infos.drop (k + 1) ∧
      counts.length = min (k + 1) infos.length ∧
      (∀ n ∈ counts, 1 ≤ n ∧ n ≤ RETRY) ∧
      (retrieveAdditionalInfo geo tables infos).2.1 = requestBlocks counts infos ∧
      (k = infos.length → (retrieveAdditionalInfo geo tables infos).2.2 = .ok) ∧
      (k < infos.length → ∃ (e : Error) (info : PharmacyInfo),
        infos.get? k = some info ∧
        (retrieveAdditionalInfo geo tables infos).2.2 = .fail e ∧
        ((∃ inner, e = .wrap inner "failed to get address search" ∧
            (retrieveAdditionalInfo geo tables infos).1.get? k = some info) ∨
          (∃ c : Candidate, e = .new "failed to find reward info" ∧
            (retrieveAdditionalInfo geo tables infos).1.get? k =
              some { info with Lon := c.Longitude, Lat := c.Latitude }))) := by
  have h := enrichLoop_spec geo tables infos [] none
  simpa [retrieveAdditionalInfo] using h

theorem retrieveAdditionalInfo_failFast_witness :
    retrieveAdditionalInfo geoOnlyA [tableK1] recordsABC =
      ([{ sampleRecord "A" ["AuthA"] with
            Point := 10, Lon := tokyo.Longitude, Lat := tokyo.Latitude },
          sampleRecord "B" ["AuthB"], sampleRecord "C" []],
        "addr-A" :: List.replicate 10 "addr-B",
        .fail (.wrap (.new "invalid coordinate") "failed to get address search")) ∧
    ∃ (k : Nat) (counts : List Nat), k ≤ recordsABC.length ∧
      (retrieveAdditionalInfo geoOnlyA [tableK1] recordsABC).1.length = recordsABC.length ∧
      List.Forall₂ (Enriched geoOnlyA [tableK1]) (recordsABC.take k)
        ((retrieveAdditionalInfo geoOnlyA [tableK1] recordsABC).1.take k) ∧
      (retrieveAdditionalInfo geoOnlyA [tableK1] recordsABC).1.drop (k + 1) =
        recordsABC.drop (k + 1) ∧
      counts.length = min (k + 1) recordsABC.length ∧
      (∀ n ∈ counts, 1 ≤ n ∧ n ≤ RETRY) ∧
      (retrieveAdditionalInfo geoOnlyA [tableK1] recordsABC).2.1 =
        requestBlocks counts recordsABC ∧
      (k = recordsABC.length →
        (retrieveAdditionalInfo geoOnlyA [tableK1] recordsABC).2.2 = .ok) ∧
      (k < recordsABC.length → ∃ (e : Error) (info : PharmacyInfo),
        recordsABC.get? k = some info ∧
        (retrieveAdditionalInfo geoOnlyA [tableK1] recordsABC).2.2 = .fail e ∧
        ((∃ inner, e = .wrap inner "failed to get address search" ∧
            (retrieveAdditionalInfo geoOnlyA [tableK1] recordsABC).1.get? k = some info) ∨
          (∃ c : Candidate, e = .new "failed to find reward info" ∧
            (retrieveAdditionalInfo geoOnlyA [tableK1] recordsABC).1.get? k =
              some { info with Lon := c.Longitude, Lat := c.Latitude }))) :=
  ⟨by decide, retrieveAdditionalInfo_failFast geoOnlyA [tableK1] recordsABC⟩

/-! ## The reward-table lookup -/

theorem findReward_eq_none_iff (key : String) (tables : List RewardInfo) :
    findReward key tables none = none ↔ tables = [] := by
  cases tables with
  | nil => simp [findReward]
  | cons t rest =>
    simp only [reduceCtorEq, iff_false]
    intro h
    have hsome : ∀ (l : List RewardInfo) (x : RewardInfo), findReward key l (some x) ≠ none := by
      intro l
      induction l with
      | nil => intro x; simp [findReward]
      | cons y ys ih =>
        intro x
        rw [findReward]
        split
        · simp
        · exact ih y
    rw [findReward] at h
    split at h
    · cases h
    · exact hsome rest t h

/-- C1 fails on the code: with the single table "K1" loaded and a record
whose reward key is "K2", the lookup loop ends with `rinfo` on the last table;
no error is returned and the record receives the 10 points of table "K1". -/
theorem findReward_no_match_takes_last :
    (∀ t ∈ [tableK1], t.ID ≠ recordK2.RewardID) ∧
    findReward recordK2.RewardID [tableK1] none = some tableK1 ∧
    retrieveAdditionalInfo geoAlways [tableK1] [recordK2] =
      ([{ recordK2 with Point := 10, Lon := tokyo.Longitude, Lat := tokyo.Latitude }],
        ["addr-A001"], .ok) := by
  decide

end PharmacyMap
